import Mathlib

/-!
Verification development for `cmd/gentypes/gentypes.go`, the schema-to-Go
type generator of the go-dap repository.

The generator reads a JSON schema document (`debugProtocol.json`), walks the
`definitions` object in source order, and emits one Go type per definition.
We embed the JSON data that the generator manipulates as an inductive
`JsonValue` whose objects are ordered association lists (mirroring the raw
bytes the Go code keeps in `json.RawMessage` precisely to preserve order),
embed the token stream of `encoding/json`'s `Decoder.Token` as `Tok`, and
translate each Go function into an executable Lean function.  Fallible Go
code (`log.Fatal`, panicking type assertions, `error` returns) is modelled
with `Except String`; recursion over nested JSON uses an explicit fuel
parameter so that every definition is structurally recursive and hence
computable by the kernel.  Emitted Go source text is modelled structurally:
a `TypeOut` holds exactly the data the Go code prints for one `type` block
(name, embedded base, fields with their tags), in emission order.

Unicode caveat: `strings.Title` is modelled exactly on the ASCII range
(the only range exercised by the schema's property names); `unicode.ToTitle`
is modelled as ASCII upcasing.
-/

/-- A parsed JSON value.  Objects keep their key/value pairs as an ordered
list, which is the information `json.RawMessage` preserves in the Go code. -/
inductive JsonValue where
  | null : JsonValue
  | bool (b : Bool) : JsonValue
  | num (n : Int) : JsonValue
  | str (s : String) : JsonValue
  | arr (elems : List JsonValue) : JsonValue
  | obj (fields : List (String × JsonValue)) : JsonValue

/-- One token of the `encoding/json` streaming decoder: a delimiter, or a
primitive value.  `json.Delim` values are the four brackets. -/
inductive Tok where
  | lbrace | rbrace | lbrack | rbrack
  | tstr (s : String) | tnum (n : Int) | tbool (b : Bool) | tnull
deriving DecidableEq, Repr

mutual
/-- The token stream `json.NewDecoder` produces for the bytes of a value. -/
def toks : JsonValue → List Tok
  | .null => [.tnull]
  | .bool b => [.tbool b]
  | .num n => [.tnum n]
  | .str s => [.tstr s]
  | .arr xs => .lbrack :: toksList xs ++ [.rbrack]
  | .obj kvs => .lbrace :: toksKVs kvs ++ [.rbrace]

/-- Token stream of the elements of an array, concatenated. -/
def toksList : List JsonValue → List Tok
  | [] => []
  | v :: vs => toks v ++ toksList vs

/-- Token stream of the members of an object: each key as a string token,
followed by the value's tokens. -/
def toksKVs : List (String × JsonValue) → List Tok
  | [] => []
  | (k, v) :: kvs => .tstr k :: (toks v ++ toksKVs kvs)
end

/-- Result of the `skipValue` helper: normal return with the remaining
tokens, the distinguished `errEnd` signal (a closing delimiter was read,
with the remaining tokens), or a decoding error. -/
inductive SkipRes where
  | ok (rest : List Tok)
  | closed (rest : List Tok)
  | fail
deriving DecidableEq, Repr

mutual
/-- `skipValue` of gentypes.go: read one token; recurse through a whole
array/object; surface a closing delimiter as the `errEnd` signal `closed`.
The fuel argument bounds the recursion depth; every recursive call
decrements it, so the definition is structural and kernel-computable. -/
def skipValueF : Nat → List Tok → SkipRes
  | 0, _ => .fail
  | _ + 1, [] => .fail
  | fuel + 1, t :: rest =>
    match t with
    | .lbrack => skipManyF fuel rest
    | .lbrace => skipManyF fuel rest
    | .rbrack => .closed rest
    | .rbrace => .closed rest
    | _ => .ok rest

/-- The inner `for` loop of `skipValue`: skip values until `errEnd`. -/
def skipManyF : Nat → List Tok → SkipRes
  | 0, _ => .fail
  | fuel + 1, ts =>
    match skipValueF fuel ts with
    | .ok rest => skipManyF fuel rest
    | .closed rest => .ok rest
    | .fail => .fail
end

/-- The loop of `keysInOrder`: read a token; `}` finishes the key list, a
string token is a key whose value is skipped, any other token is the
failing `t.(string)` assertion. -/
def keysLoopF : Nat → List Tok → Except String (List String)
  | 0, _ => .error "out of fuel"
  | _ + 1, [] => .error "unexpected end of JSON input"
  | fuel + 1, t :: rest =>
    match t with
    | .rbrace => .ok []
    | .tstr k =>
      match skipValueF fuel rest with
      | .ok rest2 =>
        match keysLoopF fuel rest2 with
        | .ok keys => .ok (k :: keys)
        | .error e => .error e
      | .closed _ => .error "invalid end of array or object"
      | .fail => .error "unexpected end of JSON input"
    | _ => .error "interface conversion: interface is not string"

/-- `keysInOrder` of gentypes.go: the keys of a JSON object, in their
original source order, obtained by a token walk over the raw bytes. -/
def keysInOrder (ts : List Tok) : Except String (List String) :=
  match ts with
  | [] => .error "unexpected end of JSON input"
  | .lbrace :: rest => keysLoopF (2 * ts.length + 4) rest
  | _ :: _ => .error "expected start of object"

/-- Go map indexing for an object decoded into `map[string]json.RawMessage`
or `map[string]interface\x7b\x7d`: with duplicate keys, `encoding/json`
keeps the last occurrence. -/
def mapGet : List (String × JsonValue) → String → Option JsonValue
  | [], _ => none
  | (k, v) :: rest, key =>
    match mapGet rest key with
    | some r => some r
    | none => if k == key then some v else none

/-- `json.Unmarshal` of a value into a Go map type: succeeds on an object
(the member list) and on `null` (the nil map); fails otherwise. -/
def asObj : JsonValue → Except String (List (String × JsonValue))
  | .obj kvs => .ok kvs
  | .null => .ok []
  | _ => .error "json: cannot unmarshal value into Go value of type map"

/-- `replaceGoTypename` of gentypes.go: the DAP type `Message` is renamed
to `ErrorMessage`; every other name is unchanged. -/
def replaceGoTypename (typeName : String) : String :=
  if typeName == "Message" then "ErrorMessage" else typeName

/-- `parseRef` of gentypes.go: the value of a `$ref` key must be a string
with the prefix `#/definitions/` (14 characters); the remainder is the
referenced type name, passed through `replaceGoTypename`.  A non-string
value is the failing `refValue.(string)` assertion. -/
def parseRef (refValue : JsonValue) : Except String String :=
  match refValue with
  | .str refContents =>
    if List.isPrefixOf "#/definitions/".data refContents.data then
      .ok (replaceGoTypename (String.mk (refContents.data.drop 14)))
    else
      .error "want ref to start with #/definitions/"
  | _ => .error "interface conversion: interface is not string"

/-- `strings.isSeparator` on the ASCII range: ASCII alphanumerics and the
underscore are not separators, every other ASCII rune is. -/
def isSeparator (c : Char) : Bool :=
  if c.toNat ≤ 0x7F then
    if 48 ≤ c.toNat && c.toNat ≤ 57 then false
    else if 97 ≤ c.toNat && c.toNat ≤ 122 then false
    else if 65 ≤ c.toNat && c.toNat ≤ 90 then false
    else if c == '_' then false
    else true
  else false

/-- `strings.Title`: map each rune to its title case when the previous rune
is a separator; the previous-rune state starts as a space. -/
def titleChars : Char → List Char → List Char
  | _, [] => []
  | prev, c :: rest =>
    (if isSeparator prev then c.toUpper else c) :: titleChars c rest

/-- `goFieldName` of gentypes.go: replace each underscore with a space,
apply `strings.Title`, then delete the spaces. -/
def goFieldName (jsonPropName : String) : String :=
  let clean := jsonPropName.data.map fun c => if c == '_' then ' ' else c
  let titled := titleChars ' ' clean
  String.mk (titled.filter fun c => !(c == ' '))

/-- `parsePropertyType` of gentypes.go: map a property descriptor (a
decoded `map[string]interface\x7b\x7d`) to the Go type expression used for
the field.  A `$ref` wins over everything; otherwise the `type`
discriminator selects a builtin, a slice (recursing into `items`), a
string-keyed map (recursing into `additionalProperties`), or - when the
discriminator is itself a JSON list - `interface\x7b\x7d`. -/
def parsePropertyType : Nat → List (String × JsonValue) → Except String String
  | 0, _ => .error "out of fuel"
  | fuel + 1, propValue =>
    match mapGet propValue "$ref" with
    | some ref => parseRef ref
    | none =>
      match mapGet propValue "type" with
      | none => .error "property with no type or ref"
      | some propType =>
        match propType with
        | .str s =>
          if s == "string" then .ok "string"
          else if s == "integer" then .ok "int"
          else if s == "boolean" then .ok "bool"
          else if s == "array" then
            match mapGet propValue "items" with
            | none => .error "missing items type for property of array type"
            | some propItems =>
              match propItems with
              | .obj propItemsMap =>
                match parsePropertyType fuel propItemsMap with
                | .ok t => .ok ("[]" ++ t)
                | .error e => .error e
              | _ => .error "interface conversion: interface is not map"
          else if s == "object" then
            match mapGet propValue "additionalProperties" with
            | none => .error "missing additionalProperties field when type=object"
            | some additionalProps =>
              match additionalProps with
              | .obj additionalMap =>
                match parsePropertyType fuel additionalMap with
                | .ok t => .ok ("map[string]" ++ t)
                | .error e => .error e
              | _ => .error "interface conversion: interface is not map"
          else .error "unknown property type value"
        | .arr _ => .ok "interface\x7b\x7d"
        | _ => .error "unknown property type"

/-- `maybeParseInheritance` of gentypes.go: no `allOf` key leaves the
description as-is with an empty base type name; otherwise `allOf` must be a
two-element list whose first element is an object carrying the base type
reference and whose second element is the type's own object description. -/
def maybeParseInheritance (descMap : List (String × JsonValue)) :
    Except String (String × List (String × JsonValue)) :=
  match mapGet descMap "allOf" with
  | none => .ok ("", descMap)
  | some allOfListJson =>
    match allOfListJson with
    | .arr allOfSliceOfJson =>
      match allOfSliceOfJson with
      | [first, second] =>
        match first, second with
        | .obj baseTypeRef, .obj typeDescJson =>
          match parseRef ((mapGet baseTypeRef "$ref").getD .null) with
          | .ok baseTypeName => .ok (baseTypeName, typeDescJson)
          | .error e => .error e
        | .obj baseTypeRef, .null =>
          match parseRef ((mapGet baseTypeRef "$ref").getD .null) with
          | .ok baseTypeName => .ok (baseTypeName, [])
          | .error e => .error e
        | _, _ => .error "json: cannot unmarshal value into Go value of type map"
      | _ => .error "want 2 elements in allOf list"
    | .null => .error "want 2 elements in allOf list"
    | _ => .error "json: cannot unmarshal value into Go value of type slice"

/-- The four field-collision `continue` conditions at the head of the
property loop of `emitToplevelType`. -/
def suppressProp (typeName propName : String) : Bool :=
  (propName == "type" &&
     (typeName == "Request" || typeName == "Response" || typeName == "Event")) ||
  (propName == "command" && !(typeName == "Request") && !(typeName == "Response")) ||
  (propName == "event" && !(typeName == "Event")) ||
  (propName == "arguments" && typeName == "Request")

/-- One emitted struct field: the Go field name, the Go type expression,
the JSON property name it came from, whether the property is required, and
the literal struct tag text the generator prints. -/
structure FieldOut where
  goName : String
  goType : String
  jsonName : String
  required : Bool
  tag : String
deriving DecidableEq, Repr

/-- One emitted Go type block: a string alias (`type N string`) or a struct
with an optional embedded base type (empty string for none) and its fields
in emission order. -/
inductive TypeOut where
  | alias (name : String)
  | structOut (name : String) (base : String) (fields : List FieldOut)
deriving DecidableEq, Repr

/-- The Go type name a `TypeOut` declares. -/
def TypeOut.name : TypeOut → String
  | .alias n => n
  | .structOut n _ _ => n

/-- The required-set of a type description: absent key means no property is
required; the value must be a JSON list of strings. -/
def requiredOf (descMap : List (String × JsonValue)) : Except String (List String) :=
  match mapGet descMap "required" with
  | none => .ok []
  | some requiredJson =>
    match requiredJson with
    | .null => .ok []
    | .arr xs =>
      xs.mapM fun r =>
        match r with
        | .str s => Except.ok s
        | _ => Except.error "interface conversion: interface is not string"
    | _ => .error "json: cannot unmarshal value into Go value of type slice"

mutual
/-- `emitToplevelType` of gentypes.go.  Returns the emitted type blocks in
emission order: the type itself first, then - when an inline `body`
property synthesized one - the secondary body type's blocks.  The fuel
argument bounds the `body` recursion depth. -/
def emitToplevelType : Nat → String → JsonValue → Except String (List TypeOut)
  | 0, _, _ => .error "out of fuel"
  | fuel + 1, typeName, descJson =>
    match asObj descJson with
    | .error e => .error e
    | .ok descMap0 =>
      match maybeParseInheritance descMap0 with
      | .error e => .error e
      | .ok (baseType, descMap) => emitTypeBody fuel typeName baseType descMap

/-- The remainder of `emitToplevelType` after inheritance resolution:
dispatch on the `type` discriminator, gather properties in source order and
the required-set, run the property loop, and place any synthesized body
type right after the current type. -/
def emitTypeBody : Nat → String → String → List (String × JsonValue) →
    Except String (List TypeOut)
  | 0, _, _, _ => .error "out of fuel"
  | fuel + 1, typeName, baseType, descMap =>
    match mapGet descMap "type" with
    | none => .error "want description to have type"
    | some typeJson =>
      match typeJson with
      | .str descTypeString =>
        if descTypeString == "string" then .ok [.alias typeName]
        else if descTypeString == "object" then
          match mapGet descMap "properties" with
          | none => .ok [.structOut typeName baseType []]
          | some propsJson =>
            match asObj propsJson with
            | .error e => .error e
            | .ok propsMapOfJson =>
              match keysInOrder (toks propsJson) with
              | .error e => .error e
              | .ok propsNamesInOrder =>
                match requiredOf descMap with
                | .error e => .error e
                | .ok requiredList =>
                  match emitPropLoop fuel typeName propsMapOfJson requiredList
                      propsNamesInOrder with
                  | .error e => .error e
                  | .ok (fields, bodyType) =>
                    .ok (.structOut typeName baseType fields :: bodyType)
        else .error "want description type to be object or string"
      | _ => .error "json: cannot unmarshal value into Go value of type string"

/-- The property loop of `emitToplevelType`: walk the property names in
source order; drop collision-suppressed names before touching their
descriptor; decode each kept descriptor into a generic object; handle
`body` specially (skip for Response/Event, use a `$ref` directly, or
synthesize `<TypeName>Body` recursively, a later inline body overwriting an
earlier one); emit every other property as a field via
`parsePropertyType`. -/
def emitPropLoop : Nat → String → List (String × JsonValue) → List String →
    List String → Except String (List FieldOut × List TypeOut)
  | 0, _, _, _, _ => .error "out of fuel"
  | fuel + 1, typeName, propsMapOfJson, requiredList, names =>
    match names with
    | [] => .ok ([], [])
    | propName :: rest =>
      if suppressProp typeName propName then
        emitPropLoop fuel typeName propsMapOfJson requiredList rest
      else
        match mapGet propsMapOfJson propName with
        | none => .error "unexpected end of JSON input"
        | some propJson =>
          match asObj propJson with
          | .error e => .error e
          | .ok propDesc =>
            if propName == "body" then
              if typeName == "Response" || typeName == "Event" then
                emitPropLoop fuel typeName propsMapOfJson requiredList rest
              else
                match (match mapGet propDesc "$ref" with
                       | some ref =>
                         match parseRef ref with
                         | .ok n => Except.ok (n, ([] : List TypeOut))
                         | .error e => Except.error e
                       | none =>
                         match emitToplevelType fuel (typeName ++ "Body") propJson with
                         | .ok ts => Except.ok (typeName ++ "Body", ts)
                         | .error e => Except.error e) with
                | .error e => .error e
                | .ok (bodyTypeName, bodyCur) =>
                  let req := requiredList.contains "body"
                  let fld : FieldOut :=
                    { goName := "Body", goType := bodyTypeName, jsonName := "body",
                      required := req,
                      tag := if req then "`json:\"body\"`"
                             else "`json:\"body,omitempty\"`" }
                  match emitPropLoop fuel typeName propsMapOfJson requiredList rest with
                  | .error e => .error e
                  | .ok (fields, bodyRest) =>
                    .ok (fld :: fields,
                         if bodyRest.isEmpty then bodyCur else bodyRest)
            else
              match parsePropertyType fuel propDesc with
              | .error e => .error e
              | .ok goType =>
                let req := requiredList.contains propName
                let fld : FieldOut :=
                  { goName := goFieldName propName, goType := goType,
                    jsonName := propName, required := req,
                    tag := "`json:\"" ++ propName ++
                           (if req then "\"`" else ",omitempty\"`") }
                match emitPropLoop fuel typeName propsMapOfJson requiredList rest with
                | .error e => .error e
                | .ok (fields, bodyRest) => .ok (fld :: fields, bodyRest)
end

/-- `strings.HasSuffix`. -/
def hasSuffix (s suffix : String) : Bool :=
  List.isSuffixOf suffix.data s.data

/-- The marker check of `main`: a top-level type receives an `isMessage`
implementation when its (renamed) name ends in Event, Request or Response,
or is exactly ProtocolMessage. -/
def isMessageMarker (typeName : String) : Bool :=
  hasSuffix typeName "Event" || hasSuffix typeName "Request" ||
  hasSuffix typeName "Response" || typeName == "ProtocolMessage"

/-- The emission loop of `main`: emit every definition in key order under
its renamed name, failing fast on the first error, as the sequence of
`log.Fatal`-guarded `emitToplevelType` calls does. -/
def emitAll (fuel : Nat) (typeMap : List (String × JsonValue)) :
    List String → Except String (List (List TypeOut))
  | [] => .ok []
  | typeName :: rest =>
    match mapGet typeMap typeName with
    | none => .error "unexpected end of JSON input"
    | some descJson =>
      match emitToplevelType fuel (replaceGoTypename typeName) descJson with
      | .error e => .error e
      | .ok g =>
        match emitAll fuel typeMap rest with
        | .error e => .error e
        | .ok gs => .ok (g :: gs)

/-- `main` of gentypes.go, after the file read: decode the document, walk
the `definitions` keys in source order, emit every definition under its
renamed name (each yielding its type blocks, in order), and compute the
list of type names that receive the `isMessage` marker implementation.
Output is produced only from a fully successful run, matching the single
`fmt.Print` at the end of `main`. -/
def genTypes (fuel : Nat) (doc : JsonValue) :
    Except String (List (List TypeOut) × List String) :=
  match asObj doc with
  | .error e => .error e
  | .ok m =>
    match mapGet m "definitions" with
    | none => .error "unexpected end of JSON input"
    | some defsJson =>
      match asObj defsJson with
      | .error e => .error e
      | .ok typeMap =>
        match keysInOrder (toks defsJson) with
        | .error e => .error e
        | .ok typeNames =>
          match emitAll fuel typeMap typeNames with
          | .error e => .error e
          | .ok groups =>
            .ok (groups,
                 (typeNames.map replaceGoTypename).filter isMessageMarker)

/-- The complete keep/drop decision of the property loop: the four
collision-suppression conditions, plus the skip of `body` for Response and
Event.  Used only to state theorems about the loop. -/
def dropProp (typeName propName : String) : Bool :=
  suppressProp typeName propName ||
  (propName == "body" && (typeName == "Response" || typeName == "Event"))

/-- The struct tag text the generator prints for a property: the property
name verbatim, with `,omitempty` appended exactly when the property is not
required.  Used only to state theorems about emitted fields. -/
def mkJsonTag (propName : String) (required : Bool) : String :=
  "`json:\"" ++ propName ++ (if required then "\"`" else ",omitempty\"`")

theorem toks_length_pos (v : JsonValue) : 1 ≤ (toks v).length := by
  cases v <;> simp [toks]

mutual
theorem skipValueF_toks :
    ∀ (v : JsonValue) (fuel : Nat) (rest : List Tok),
      2 * (toks v).length ≤ fuel → skipValueF fuel (toks v ++ rest) = .ok rest
  | .null, fuel, rest, h => by
    obtain ⟨f, rfl⟩ : ∃ f, fuel = f + 1 := ⟨fuel - 1, by simp [toks] at h; omega⟩
    simp [toks, skipValueF]
  | .bool b, fuel, rest, h => by
    obtain ⟨f, rfl⟩ : ∃ f, fuel = f + 1 := ⟨fuel - 1, by simp [toks] at h; omega⟩
    simp [toks, skipValueF]
  | .num n, fuel, rest, h => by
    obtain ⟨f, rfl⟩ : ∃ f, fuel = f + 1 := ⟨fuel - 1, by simp [toks] at h; omega⟩
    simp [toks, skipValueF]
  | .str s, fuel, rest, h => by
    obtain ⟨f, rfl⟩ : ∃ f, fuel = f + 1 := ⟨fuel - 1, by simp [toks] at h; omega⟩
    simp [toks, skipValueF]
  | .arr xs, fuel, rest, h => by
    simp only [toks, List.length_cons, List.length_append, List.length_singleton] at h
    obtain ⟨f, rfl⟩ : ∃ f, fuel = f + 1 := ⟨fuel - 1, by omega⟩
    have heq : toks (.arr xs) ++ rest =
        Tok.lbrack :: (toksList xs ++ Tok.rbrack :: rest) := by
      simp [toks]
    rw [heq]
    simp only [skipValueF]
    exact skipManyF_toksList xs f rest Tok.rbrack (Or.inl rfl) (by omega)
  | .obj kvs, fuel, rest, h => by
    simp only [toks, List.length_cons, List.length_append, List.length_singleton] at h
    obtain ⟨f, rfl⟩ : ∃ f, fuel = f + 1 := ⟨fuel - 1, by omega⟩
    have heq : toks (.obj kvs) ++ rest =
        Tok.lbrace :: (toksKVs kvs ++ Tok.rbrace :: rest) := by
      simp [toks]
    rw [heq]
    simp only [skipValueF]
    exact skipManyF_toksKVs kvs f rest (by omega)

theorem skipManyF_toksList :
    ∀ (xs : List JsonValue) (fuel : Nat) (rest : List Tok) (c : Tok),
      (c = Tok.rbrack ∨ c = Tok.rbrace) → 2 * (toksList xs).length + 2 ≤ fuel →
      skipManyF fuel (toksList xs ++ c :: rest) = .ok rest
  | [], fuel, rest, c, hc, h => by
    obtain ⟨f, rfl⟩ : ∃ f, fuel = f + 1 := ⟨fuel - 1, by omega⟩
    obtain ⟨f2, rfl⟩ : ∃ f2, f = f2 + 1 := ⟨f - 1, by omega⟩
    rcases hc with rfl | rfl <;> simp [toksList, skipManyF, skipValueF]
  | v :: vs, fuel, rest, c, hc, h => by
    have h1 := toks_length_pos v
    simp only [toksList, List.length_append] at h
    obtain ⟨f, rfl⟩ : ∃ f, fuel = f + 1 := ⟨fuel - 1, by omega⟩
    have heq : toksList (v :: vs) ++ c :: rest =
        toks v ++ (toksList vs ++ c :: rest) := by
      simp [toksList]
    rw [heq]
    simp only [skipManyF]
    rw [skipValueF_toks v f (toksList vs ++ c :: rest) (by omega)]
    exact skipManyF_toksList vs f rest c hc (by omega)

theorem skipManyF_toksKVs :
    ∀ (kvs : List (String × JsonValue)) (fuel : Nat) (rest : List Tok),
      2 * (toksKVs kvs).length + 2 ≤ fuel →
      skipManyF fuel (toksKVs kvs ++ Tok.rbrace :: rest) = .ok rest
  | [], fuel, rest, h => by
    obtain ⟨f, rfl⟩ : ∃ f, fuel = f + 1 := ⟨fuel - 1, by omega⟩
    obtain ⟨f2, rfl⟩ : ∃ f2, f = f2 + 1 := ⟨f - 1, by omega⟩
    simp [toksKVs, skipManyF, skipValueF]
  | (k, v) :: kvs, fuel, rest, h => by
    have h1 := toks_length_pos v
    simp only [toksKVs, List.length_cons, List.length_append] at h
    obtain ⟨f, rfl⟩ : ∃ f, fuel = f + 2 := ⟨fuel - 2, by omega⟩
    have heq : toksKVs ((k, v) :: kvs) ++ Tok.rbrace :: rest =
        Tok.tstr k :: (toks v ++ (toksKVs kvs ++ Tok.rbrace :: rest)) := by
      simp [toksKVs]
    rw [heq]
    simp only [skipManyF, skipValueF]
    rw [skipValueF_toks v f (toksKVs kvs ++ Tok.rbrace :: rest) (by omega)]
    exact skipManyF_toksKVs kvs f rest (by omega)
end

theorem keysLoopF_toksKVs :
    ∀ (kvs : List (String × JsonValue)) (fuel : Nat) (rest : List Tok),
      2 * (toksKVs kvs).length + 2 ≤ fuel →
      keysLoopF fuel (toksKVs kvs ++ Tok.rbrace :: rest) = .ok (kvs.map Prod.fst)
  | [], fuel, rest, h => by
    obtain ⟨f, rfl⟩ : ∃ f, fuel = f + 1 := ⟨fuel - 1, by omega⟩
    simp [toksKVs, keysLoopF]
  | (k, v) :: kvs, fuel, rest, h => by
    have h1 := toks_length_pos v
    simp only [toksKVs, List.length_cons, List.length_append] at h
    obtain ⟨f, rfl⟩ : ∃ f, fuel = f + 1 := ⟨fuel - 1, by omega⟩
    have heq : toksKVs ((k, v) :: kvs) ++ Tok.rbrace :: rest =
        Tok.tstr k :: (toks v ++ (toksKVs kvs ++ Tok.rbrace :: rest)) := by
      simp [toksKVs]
    rw [heq]
    simp only [keysLoopF]
    rw [skipValueF_toks v f (toksKVs kvs ++ Tok.rbrace :: rest) (by omega)]
    simp [keysLoopF_toksKVs kvs f rest (by omega)]

/-- The token walk of `keysInOrder` recovers exactly the keys of an object,
in source order, duplicates included. -/
theorem keysInOrder_obj (kvs : List (String × JsonValue)) :
    keysInOrder (toks (.obj kvs)) = .ok (kvs.map Prod.fst) := by
  have heq : toks (.obj kvs) = Tok.lbrace :: (toksKVs kvs ++ Tok.rbrace :: []) := by
    simp [toks]
  rw [heq]
  simp only [keysInOrder]
  exact keysLoopF_toksKVs kvs _ [] (by simp; omega)

theorem suppressProp_body (t : String) : suppressProp t "body" = false := rfl

theorem goFieldName_body : goFieldName "body" = "Body" := by decide

theorem bodyTag_eq_mkJsonTag (r : Bool) :
    (if r then "`json:\"body\"`" else "`json:\"body,omitempty\"`") = mkJsonTag "body" r := by
  cases r <;> decide

/-- Master description of a successful run of the property loop: the field
list is exactly the name list filtered by the keep/drop decision, in order;
each field's required flag, Go name and tag are determined by its JSON
name; and no secondary body type is produced when the owning type is
Response or Event or when no property is named `body`. -/
theorem emitPropLoop_ok (fuel : Nat) (t : String) (props : List (String × JsonValue))
    (reqList : List String) :
    ∀ (names : List String) (fields : List FieldOut) (bodies : List TypeOut),
      emitPropLoop fuel t props reqList names = .ok (fields, bodies) →
      fields.map FieldOut.jsonName = names.filter (fun p => !dropProp t p) ∧
      (∀ f ∈ fields, f.required = reqList.contains f.jsonName ∧
        f.goName = goFieldName f.jsonName ∧ f.tag = mkJsonTag f.jsonName f.required) ∧
      (((t = "Response" ∨ t = "Event") ∨ "body" ∉ names) → bodies = []) := by
  induction fuel with
  | zero => intro names fields bodies h; simp [emitPropLoop] at h
  | succ f ih =>
    intro names fields bodies h
    match names with
    | [] =>
      simp only [emitPropLoop] at h
      simp at h
      obtain ⟨rfl, rfl⟩ := h
      exact ⟨by simp, by simp, by simp⟩
    | propName :: rest =>
      simp only [emitPropLoop] at h
      cases hs : suppressProp t propName with
      | true =>
        rw [hs] at h
        simp only [if_true] at h
        obtain ⟨h1, h2, h3⟩ := ih rest fields bodies h
        refine ⟨?_, h2, ?_⟩
        · simp [List.filter_cons, dropProp, hs, h1]
        · intro hpre
          refine h3 ?_
          rcases hpre with hte | hnin
          · exact Or.inl hte
          · exact Or.inr (fun hmem => hnin (List.mem_cons_of_mem _ hmem))
      | false =>
        rw [hs] at h
        simp only [if_false, Bool.false_eq_true] at h
        cases hm : mapGet props propName with
        | none => rw [hm] at h; simp at h
        | some propJson =>
          rw [hm] at h
          simp only [] at h
          cases ho : asObj propJson with
          | error e => rw [ho] at h; simp at h
          | ok propDesc =>
            rw [ho] at h
            simp only [] at h
            cases hb : propName == "body" with
            | true =>
              have hpb : propName = "body" := by simpa using hb
              rw [hb] at h
              simp only [if_true] at h
              cases hre : (t == "Response" || t == "Event") with
              | true =>
                rw [hre] at h
                simp only [if_true] at h
                obtain ⟨h1, h2, h3⟩ := ih rest fields bodies h
                have hteq : t = "Response" ∨ t = "Event" := by
                  rcases Bool.or_eq_true_iff.mp hre with h' | h'
                  · exact Or.inl (by simpa using h')
                  · exact Or.inr (by simpa using h')
                refine ⟨?_, h2, fun _ => h3 (Or.inl hteq)⟩
                have hdrop : dropProp t propName = true := by
                  subst hpb
                  simp [dropProp, hre]
                simp [List.filter_cons, hdrop, h1]
              | false =>
                rw [hre] at h
                simp only [if_false, Bool.false_eq_true] at h
                cases hi : (match mapGet propDesc "$ref" with
                       | some ref =>
                         match parseRef ref with
                         | .ok n => Except.ok (n, ([] : List TypeOut))
                         | .error e => Except.error e
                       | none =>
                         match emitToplevelType f (t ++ "Body") propJson with
                         | .ok ts => Except.ok (t ++ "Body", ts)
                         | .error e => Except.error e) with
                | error e => rw [hi] at h; simp at h
                | ok pair =>
                  rw [hi] at h
                  obtain ⟨bodyTypeName, bodyCur⟩ := pair
                  simp only [] at h
                  cases hrec : emitPropLoop f t props reqList rest with
                  | error e => rw [hrec] at h; simp at h
                  | ok pr =>
                    rw [hrec] at h
                    obtain ⟨fields2, bodyRest⟩ := pr
                    simp only [Except.ok.injEq, Prod.mk.injEq] at h
                    obtain ⟨hf, hbod⟩ := h
                    obtain ⟨h1, h2, h3⟩ := ih rest fields2 bodyRest hrec
                    subst hf
                    refine ⟨?_, ?_, ?_⟩
                    · have hdrop : dropProp t "body" = false := by
                        simp [dropProp, suppressProp_body, hre]
                      simp [List.filter_cons, hdrop, h1, hpb]
                    · intro fld hmem
                      rcases List.mem_cons.mp hmem with rfl | hmem2
                      · refine ⟨rfl, ?_, ?_⟩
                        · simp [goFieldName_body]
                        · exact bodyTag_eq_mkJsonTag (reqList.contains "body")
                      · exact h2 fld hmem2
                    · intro hpre
                      exfalso
                      rcases hpre with hte | hnin
                      · rcases hte with rfl | rfl <;> simp at hre
                      · exact hnin (by simp [hpb])
            | false =>
              rw [hb] at h
              simp only [if_false, Bool.false_eq_true] at h
              cases hpt : parsePropertyType f propDesc with
              | error e => rw [hpt] at h; simp at h
              | ok goType =>
                rw [hpt] at h
                simp only [] at h
                cases hrec : emitPropLoop f t props reqList rest with
                | error e => rw [hrec] at h; simp at h
                | ok pr =>
                  rw [hrec] at h
                  obtain ⟨fields2, bodyRest⟩ := pr
                  simp only [Except.ok.injEq, Prod.mk.injEq] at h
                  obtain ⟨hf, hbod⟩ := h
                  obtain ⟨h1, h2, h3⟩ := ih rest fields2 bodyRest hrec
                  subst hf
                  refine ⟨?_, ?_, ?_⟩
                  · have hdrop : dropProp t propName = false := by
                      simp [dropProp, hs, hb]
                    simp [List.filter_cons, hdrop, h1]
                  · intro fld hmem
                    rcases List.mem_cons.mp hmem with rfl | hmem2
                    · exact ⟨rfl, rfl, rfl⟩
                    · exact h2 fld hmem2
                  · intro hpre
                    subst hbod
                    refine h3 ?_
                    rcases hpre with hte | hnin
                    · exact Or.inl hte
                    · exact Or.inr (fun hmem => hnin (List.mem_cons_of_mem _ hmem))

/-- Unfolding of `emitToplevelType` once decoding and inheritance
resolution have succeeded. -/
theorem emitToplevelType_unfold (f : Nat) (t : String) (d : JsonValue)
    (dm0 dm : List (String × JsonValue)) (bt : String)
    (h1 : asObj d = .ok dm0)
    (h2 : maybeParseInheritance dm0 = .ok (bt, dm)) :
    emitToplevelType (f + 1) t d = emitTypeBody f t bt dm := by
  simp only [emitToplevelType, h1, h2]

/-- Unfolding of `emitTypeBody` for an object-form description whose
properties, key walk and required-set all decode. -/
theorem emitTypeBody_object (f : Nat) (t b : String) (dm : List (String × JsonValue))
    (propsJson : JsonValue) (props : List (String × JsonValue)) (names req : List String)
    (hty : mapGet dm "type" = some (.str "object"))
    (hpr : mapGet dm "properties" = some propsJson)
    (hobj : asObj propsJson = .ok props)
    (hk : keysInOrder (toks propsJson) = .ok names)
    (hreq : requiredOf dm = .ok req) :
    emitTypeBody (f + 1) t b dm =
      match emitPropLoop f t props req names with
      | .error e => .error e
      | .ok (fields, bodies) => .ok (.structOut t b fields :: bodies) := by
  cases hpl : emitPropLoop f t props req names with
  | error e => simp [emitTypeBody, hty, hpr, hobj, hk, hreq, hpl]
  | ok pr =>
    obtain ⟨fields, bodies⟩ := pr
    simp [emitTypeBody, hty, hpr, hobj, hk, hreq, hpl]

/-- Unfolding of `emitTypeBody` for a string-alias description. -/
theorem emitTypeBody_string (f : Nat) (t b : String) (dm : List (String × JsonValue))
    (hty : mapGet dm "type" = some (.str "string")) :
    emitTypeBody (f + 1) t b dm = .ok [.alias t] := by
  simp [emitTypeBody, hty]

/-- Every successful emission is non-empty and its first block declares
exactly the requested type name. -/
theorem emitTypeBody_head :
    ∀ (fuel : Nat) (t b : String) (dm : List (String × JsonValue)) (l : List TypeOut),
      emitTypeBody fuel t b dm = .ok l →
      ∃ hd rest, l = hd :: rest ∧ hd.name = t := by
  intro fuel t b dm l h
  cases fuel with
  | zero => simp [emitTypeBody] at h
  | succ f =>
    simp only [emitTypeBody] at h
    repeat' split at h
    all_goals simp at h
    all_goals subst h
    · exact ⟨_, _, rfl, rfl⟩
    · exact ⟨_, _, rfl, rfl⟩
    · exact ⟨_, _, rfl, rfl⟩

/-- The head block of `emitToplevelType` declares the requested name. -/
theorem emitToplevelType_head (fuel : Nat) (t : String) (d : JsonValue) (l : List TypeOut)
    (h : emitToplevelType fuel t d = .ok l) :
    ∃ hd rest, l = hd :: rest ∧ hd.name = t := by
  cases fuel with
  | zero => simp [emitToplevelType] at h
  | succ f =>
    simp only [emitToplevelType] at h
    split at h
    · simp at h
    · split at h
      · simp at h
      · exact emitTypeBody_head f t _ _ l h

theorem hasSuffix_append_body (s : String) : hasSuffix (s ++ "Body") "Body" = true := by
  unfold hasSuffix
  rw [String.data_append, List.isSuffixOf_iff_suffix]
  exact List.suffix_append _ _

/-- Every type name appearing in an emission is either the requested name
or carries the `Body` suffix of a synthesized body type. -/
theorem emit_names_body_suffix (fuel : Nat) :
    (∀ t d l, emitToplevelType fuel t d = .ok l →
      ∀ ty ∈ l, ty.name = t ∨ hasSuffix ty.name "Body" = true) ∧
    (∀ t b dm l, emitTypeBody fuel t b dm = .ok l →
      ∀ ty ∈ l, ty.name = t ∨ hasSuffix ty.name "Body" = true) ∧
    (∀ t props req names fields bodies,
      emitPropLoop fuel t props req names = .ok (fields, bodies) →
      ∀ ty ∈ bodies, hasSuffix ty.name "Body" = true) := by
  induction fuel with
  | zero =>
    refine ⟨?_, ?_, ?_⟩
    · intro t d l h; simp [emitToplevelType] at h
    · intro t b dm l h; simp [emitTypeBody] at h
    · intro t props req names fields bodies h; simp [emitPropLoop] at h
  | succ f ih =>
    obtain ⟨ihTL, ihTB, ihPL⟩ := ih
    refine ⟨?_, ?_, ?_⟩
    · intro t d l h ty hmem
      simp only [emitToplevelType] at h
      split at h
      · simp at h
      · split at h
        · simp at h
        · exact ihTB t _ _ l h ty hmem
    · intro t b dm l h ty hmem
      simp only [emitTypeBody] at h
      repeat' split at h
      all_goals simp at h
      all_goals subst h
      · simp at hmem
        subst hmem
        exact Or.inl rfl
      · simp at hmem
        subst hmem
        exact Or.inl rfl
      · rename_i fields bodies heq
        rcases List.mem_cons.mp hmem with rfl | hmem2
        · exact Or.inl rfl
        · exact Or.inr (ihPL t _ _ _ fields bodies heq ty hmem2)
    · intro t props req names fields bodies h ty hmem
      cases names with
      | nil =>
        simp [emitPropLoop] at h
        obtain ⟨-, rfl⟩ := h
        simp at hmem
      | cons propName rest =>
        simp only [emitPropLoop] at h
        cases hs : suppressProp t propName with
        | true =>
          rw [hs] at h
          simp only [if_true] at h
          exact ihPL t props req rest fields bodies h ty hmem
        | false =>
          rw [hs] at h
          simp only [if_false, Bool.false_eq_true] at h
          cases hm : mapGet props propName with
          | none => rw [hm] at h; simp at h
          | some propJson =>
            rw [hm] at h
            simp only [] at h
            cases ho : asObj propJson with
            | error e => rw [ho] at h; simp at h
            | ok propDesc =>
              rw [ho] at h
              simp only [] at h
              cases hb : propName == "body" with
              | true =>
                rw [hb] at h
                simp only [if_true] at h
                cases hre : (t == "Response" || t == "Event") with
                | true =>
                  rw [hre] at h
                  simp only [if_true] at h
                  exact ihPL t props req rest fields bodies h ty hmem
                | false =>
                  rw [hre] at h
                  simp only [if_false, Bool.false_eq_true] at h
                  cases hi : (match mapGet propDesc "$ref" with
                         | some ref =>
                           match parseRef ref with
                           | .ok n => Except.ok (n, ([] : List TypeOut))
                           | .error e => Except.error e
                         | none =>
                           match emitToplevelType f (t ++ "Body") propJson with
                           | .ok ts => Except.ok (t ++ "Body", ts)
                           | .error e => Except.error e) with
                  | error e => rw [hi] at h; simp at h
                  | ok pair =>
                    rw [hi] at h
                    obtain ⟨bodyTypeName, bodyCur⟩ := pair
                    simp only [] at h
                    cases hrec : emitPropLoop f t props req rest with
                    | error e => rw [hrec] at h; simp at h
                    | ok pr =>
                      rw [hrec] at h
                      obtain ⟨fields2, bodyRest⟩ := pr
                      simp only [Except.ok.injEq, Prod.mk.injEq] at h
                      obtain ⟨hf, hbod⟩ := h
                      subst hbod
                      by_cases hbe : bodyRest.isEmpty = true
                      · rw [if_pos hbe] at hmem
                        cases hr2 : mapGet propDesc "$ref" with
                        | some ref =>
                          rw [hr2] at hi
                          simp only [] at hi
                          cases hpr2 : parseRef ref with
                          | error e => rw [hpr2] at hi; simp at hi
                          | ok n =>
                            rw [hpr2] at hi
                            simp at hi
                            obtain ⟨-, rfl⟩ := hi
                            simp at hmem
                        | none =>
                          rw [hr2] at hi
                          simp only [] at hi
                          cases hts : emitToplevelType f (t ++ "Body") propJson with
                          | error e => rw [hts] at hi; simp at hi
                          | ok ts =>
                            rw [hts] at hi
                            simp at hi
                            obtain ⟨hn, rfl⟩ := hi
                            rcases ihTL _ _ _ hts ty hmem with hname | hsuf
                            · rw [hname]
                              exact hasSuffix_append_body t
                            · exact hsuf
                      · rw [if_neg hbe] at hmem
                        exact ihPL t props req rest fields2 bodyRest hrec ty hmem
              | false =>
                rw [hb] at h
                simp only [if_false, Bool.false_eq_true] at h
                cases hpt : parsePropertyType f propDesc with
                | error e => rw [hpt] at h; simp at h
                | ok goType =>
                  rw [hpt] at h
                  simp only [] at h
                  cases hrec : emitPropLoop f t props req rest with
                  | error e => rw [hrec] at h; simp at h
                  | ok pr =>
                    rw [hrec] at h
                    obtain ⟨fields2, bodyRest⟩ := pr
                    simp only [Except.ok.injEq, Prod.mk.injEq] at h
                    obtain ⟨hf, hbod⟩ := h
                    subst hbod
                    exact ihPL t props req rest fields2 bodyRest hrec ty hmem

theorem replaceGoTypename_ne_message (n : String) : replaceGoTypename n ≠ "Message" := by
  unfold replaceGoTypename
  cases hn : n == "Message" with
  | true => simp
  | false =>
    simp only [Bool.false_eq_true, if_false]
    exact beq_eq_false_iff_ne.mp hn

/-- No block of an emission under a name other than `Message` is ever
named `Message`; synthesized body types never are either. -/
theorem emit_no_message (fuel : Nat) (t : String) (d : JsonValue) (l : List TypeOut)
    (ht : t ≠ "Message") (h : emitToplevelType fuel t d = .ok l) :
    ∀ ty ∈ l, ty.name ≠ "Message" := by
  intro ty hmem
  rcases (emit_names_body_suffix fuel).1 t d l h ty hmem with hname | hsuf
  · rw [hname]; exact ht
  · intro hcontra
    rw [hcontra] at hsuf
    exact absurd hsuf (by decide)

/-- Reference resolution on the happy path: the prefix is stripped and the
rename applied. -/
theorem parseRef_resolves (name : String) :
    parseRef (.str ("#/definitions/" ++ name)) = .ok (replaceGoTypename name) := by
  unfold parseRef
  simp only []
  rw [String.data_append]
  rw [if_pos]
  · have hdrop : ("#/definitions/".data ++ name.data).drop 14 = name.data := by
      have hlen : "#/definitions/".data.length = 14 := by decide
      rw [← hlen, List.drop_left]
    rw [hdrop]
  · rw [ List.isPrefixOf_iff_prefix]
    exact List.prefix_append _ _

/-- Splitting a successful property-loop run at its unique `body` property
when the owning type is neither Response nor Event: there is exactly one
body field, placed in source order, and the secondary body types are `[]`
for a referenced body and exactly the recursive emission of the inline
description otherwise. -/
theorem emitPropLoop_body_split (t : String) (props : List (String × JsonValue))
    (reqList : List String) (post : List String) (bdesc : JsonValue)
    (bkvs : List (String × JsonValue))
    (hR : t ≠ "Response") (hE : t ≠ "Event")
    (hbv : mapGet props "body" = some bdesc)
    (hbo : asObj bdesc = .ok bkvs)
    (hpost : "body" ∉ post) :
    ∀ (pre : List String) (fuel : Nat) (fields : List FieldOut) (bodies : List TypeOut),
      "body" ∉ pre →
      emitPropLoop fuel t props reqList (pre ++ "body" :: post) = .ok (fields, bodies) →
      ∃ bodyTypeName f1 f2,
        fields = f1 ++ ({ goName := "Body", goType := bodyTypeName, jsonName := "body",
                          required := reqList.contains "body",
                          tag := mkJsonTag "body" (reqList.contains "body") } : FieldOut) :: f2 ∧
        ((∃ ref, mapGet bkvs "$ref" = some ref ∧ parseRef ref = .ok bodyTypeName ∧
            bodies = []) ∨
         (mapGet bkvs "$ref" = none ∧ bodyTypeName = t ++ "Body" ∧
          ∃ f', emitToplevelType f' (t ++ "Body") bdesc = .ok bodies)) := by
  intro pre
  induction pre with
  | nil =>
    intro fuel fields bodies _ h
    cases fuel with
    | zero => simp [emitPropLoop] at h
    | succ f =>
      simp only [List.nil_append, emitPropLoop] at h
      rw [suppressProp_body] at h
      simp only [Bool.false_eq_true, if_false] at h
      rw [hbv] at h
      simp only [] at h
      rw [hbo] at h
      simp only [] at h
      have hbb : (("body" : String) == "body") = true := by decide
      rw [hbb] at h
      simp only [if_true] at h
      have hre : (t == "Response" || t == "Event") = false := by
        have h1 : (t == "Response") = false := beq_eq_false_iff_ne.mpr hR
        have h2 : (t == "Event") = false := beq_eq_false_iff_ne.mpr hE
        rw [h1, h2]
        rfl
      rw [hre] at h
      simp only [Bool.false_eq_true, if_false] at h
      cases hr2 : mapGet bkvs "$ref" with
      | some ref =>
        rw [hr2] at h
        simp only [] at h
        cases hpr2 : parseRef ref with
        | error e => rw [hpr2] at h; simp at h
        | ok n =>
          rw [hpr2] at h
          simp only [] at h
          cases hrec : emitPropLoop f t props reqList post with
          | error e => rw [hrec] at h; simp at h
          | ok pr =>
            rw [hrec] at h
            obtain ⟨fields2, bodyRest⟩ := pr
            simp only [Except.ok.injEq, Prod.mk.injEq] at h
            obtain ⟨hf, hbod⟩ := h
            have hbr : bodyRest = [] :=
              (emitPropLoop_ok f t props reqList post fields2 bodyRest hrec).2.2
                (Or.inr hpost)
            subst hbr
            refine ⟨n, [], fields2, ?_, Or.inl ⟨ref, rfl, hpr2, ?_⟩⟩
            · rw [← hf, bodyTag_eq_mkJsonTag (reqList.contains "body")]
              rfl
            · simp at hbod
              first
              | exact hbod
              | exact hbod.symm
      | none =>
        rw [hr2] at h
        simp only [] at h
        cases hts : emitToplevelType f (t ++ "Body") bdesc with
        | error e => rw [hts] at h; simp at h
        | ok ts =>
          rw [hts] at h
          simp only [] at h
          cases hrec : emitPropLoop f t props reqList post with
          | error e => rw [hrec] at h; simp at h
          | ok pr =>
            rw [hrec] at h
            obtain ⟨fields2, bodyRest⟩ := pr
            simp only [Except.ok.injEq, Prod.mk.injEq] at h
            obtain ⟨hf, hbod⟩ := h
            have hbr : bodyRest = [] :=
              (emitPropLoop_ok f t props reqList post fields2 bodyRest hrec).2.2
                (Or.inr hpost)
            subst hbr
            refine ⟨t ++ "Body", [], fields2, ?_, Or.inr ⟨rfl, rfl, f, ?_⟩⟩
            · rw [← hf, bodyTag_eq_mkJsonTag (reqList.contains "body")]
              rfl
            · simp at hbod
              first
              | (rw [hbod]; exact hts)
              | (rw [← hbod]; exact hts)
  | cons p pre ih =>
    intro fuel fields bodies hpre h
    have hp : p ≠ "body" := fun hcontra => hpre (by simp [hcontra])
    have hpre2 : "body" ∉ pre := fun hcontra => hpre (by simp [hcontra])
    cases fuel with
    | zero => simp [emitPropLoop] at h
    | succ f =>
      simp only [List.cons_append, emitPropLoop] at h
      cases hs : suppressProp t p with
      | true =>
        rw [hs] at h
        simp only [if_true] at h
        exact ih f fields bodies hpre2 h
      | false =>
        rw [hs] at h
        simp only [Bool.false_eq_true, if_false] at h
        cases hm : mapGet props p with
        | none => rw [hm] at h; simp at h
        | some propJson =>
          rw [hm] at h
          simp only [] at h
          cases ho : asObj propJson with
          | error e => rw [ho] at h; simp at h
          | ok propDesc =>
            rw [ho] at h
            simp only [] at h
            have hpb : (p == "body") = false := beq_eq_false_iff_ne.mpr hp
            rw [hpb] at h
            simp only [Bool.false_eq_true, if_false] at h
            cases hpt : parsePropertyType f propDesc with
            | error e => rw [hpt] at h; simp at h
            | ok goType =>
              rw [hpt] at h
              simp only [] at h
              cases hrec : emitPropLoop f t props reqList (pre ++ "body" :: post) with
              | error e => rw [hrec] at h; simp at h
              | ok pr =>
                rw [hrec] at h
                obtain ⟨fields2, bodyRest⟩ := pr
                simp only [Except.ok.injEq, Prod.mk.injEq] at h
                obtain ⟨hf, hbod⟩ := h
                obtain ⟨btn, f1, f2, hfeq, hdisj⟩ := ih f fields2 bodyRest hpre2 hrec
                subst hbod
                refine ⟨btn,
                  ({ goName := goFieldName p, goType := goType, jsonName := p,
                     required := reqList.contains p,
                     tag := "`json:\"" ++ p ++
                       (if reqList.contains p then "\"`" else ",omitempty\"`") } :
                    FieldOut) :: f1,
                  f2, ?_, hdisj⟩
                rw [← hf, hfeq]
                rfl

/-- Each successfully emitted definition group is headed by a block whose
name is the renamed definition key. -/
theorem emitAll_names (fuel : Nat) (typeMap : List (String × JsonValue)) :
    ∀ (keys : List String) (groups : List (List TypeOut)),
      emitAll fuel typeMap keys = .ok groups →
      groups.map (fun g => g.head?.map TypeOut.name) =
        keys.map (fun k => some (replaceGoTypename k)) := by
  intro keys
  induction keys with
  | nil =>
    intro groups h
    simp only [emitAll, Except.ok.injEq] at h
    subst h
    simp
  | cons k ks ih =>
    intro groups h
    simp only [emitAll] at h
    cases hk : mapGet typeMap k with
    | none => rw [hk] at h; simp at h
    | some descJson =>
      rw [hk] at h
      simp only [] at h
      cases he : emitToplevelType fuel (replaceGoTypename k) descJson with
      | error e => rw [he] at h; simp at h
      | ok g =>
        rw [he] at h
        simp only [] at h
        cases hrest : emitAll fuel typeMap ks with
        | error e => rw [hrest] at h; simp at h
        | ok gs =>
          rw [hrest] at h
          simp only [Except.ok.injEq] at h
          subst h
          obtain ⟨hd, rest, rfl, hname⟩ :=
            emitToplevelType_head fuel (replaceGoTypename k) descJson g he
          simp only [List.map_cons, List.head?_cons]
          rw [ih gs hrest]
          simp [hname]

/-- The emitted top-level group sequence of a full generator run follows
the definitions object's key order, under the rename, and the marker list
is the renamed key list filtered by the marker check. -/
theorem genTypes_names (fuel : Nat) (doc : JsonValue) (m : List (String × JsonValue))
    (defs : List (String × JsonValue))
    (groups : List (List TypeOut)) (markers : List String)
    (hm : asObj doc = .ok m)
    (hd : mapGet m "definitions" = some (.obj defs))
    (h : genTypes fuel doc = .ok (groups, markers)) :
    groups.map (fun g => g.head?.map TypeOut.name) =
      defs.map (fun kv => some (replaceGoTypename kv.1)) ∧
    markers = ((defs.map Prod.fst).map replaceGoTypename).filter isMessageMarker := by
  unfold genTypes at h
  rw [hm] at h
  simp only [] at h
  rw [hd] at h
  simp only [] at h
  rw [keysInOrder_obj defs] at h
  simp only [asObj] at h
  cases hmap : emitAll fuel defs (defs.map Prod.fst) with
  | error e => rw [hmap] at h; simp at h
  | ok gs =>
    rw [hmap] at h
    simp only [Except.ok.injEq, Prod.mk.injEq] at h
    obtain ⟨rfl, rfl⟩ := h
    constructor
    · rw [emitAll_names fuel defs (defs.map Prod.fst) gs hmap]
      simp
    · rfl

/-- Inversion of a successful generator run: the groups come from the
emission loop over the definition keys, and the markers are the renamed
keys filtered by the marker check. -/
theorem genTypes_inv (fuel : Nat) (doc : JsonValue) (m : List (String × JsonValue))
    (defs : List (String × JsonValue))
    (groups : List (List TypeOut)) (markers : List String)
    (hm : asObj doc = .ok m)
    (hd : mapGet m "definitions" = some (.obj defs))
    (h : genTypes fuel doc = .ok (groups, markers)) :
    emitAll fuel defs (defs.map Prod.fst) = .ok groups ∧
    markers = ((defs.map Prod.fst).map replaceGoTypename).filter isMessageMarker := by
  unfold genTypes at h
  rw [hm] at h
  simp only [] at h
  rw [hd] at h
  simp only [] at h
  rw [keysInOrder_obj defs] at h
  simp only [asObj] at h
  cases hmap : emitAll fuel defs (defs.map Prod.fst) with
  | error e => rw [hmap] at h; simp at h
  | ok gs =>
    rw [hmap] at h
    simp only [Except.ok.injEq, Prod.mk.injEq] at h
    obtain ⟨rfl, rfl⟩ := h
    exact ⟨rfl, rfl⟩

/-- No block produced by the emission loop is named `Message`. -/
theorem emitAll_no_message (fuel : Nat) (typeMap : List (String × JsonValue)) :
    ∀ (keys : List String) (groups : List (List TypeOut)),
      emitAll fuel typeMap keys = .ok groups →
      ∀ g ∈ groups, ∀ ty ∈ g, ty.name ≠ "Message" := by
  intro keys
  induction keys with
  | nil =>
    intro groups h
    simp only [emitAll, Except.ok.injEq] at h
    subst h
    simp
  | cons k ks ih =>
    intro groups h
    simp only [emitAll] at h
    cases hk : mapGet typeMap k with
    | none => rw [hk] at h; simp at h
    | some descJson =>
      rw [hk] at h
      simp only [] at h
      cases he : emitToplevelType fuel (replaceGoTypename k) descJson with
      | error e => rw [he] at h; simp at h
      | ok g =>
        rw [he] at h
        simp only [] at h
        cases hrest : emitAll fuel typeMap ks with
        | error e => rw [hrest] at h; simp at h
        | ok gs =>
          rw [hrest] at h
          simp only [Except.ok.injEq] at h
          subst h
          intro g2 hg2 ty hty
          rcases List.mem_cons.mp hg2 with rfl | hg3
          · exact emit_no_message fuel (replaceGoTypename k) descJson g2
              (replaceGoTypename_ne_message k) he ty hty
          · exact ih gs hrest g2 hg3 ty hty

/-- Shape of a successful emission: the head block is either the alias of
the requested name or a struct with exactly the requested name and base. -/
theorem emitTypeBody_shape (fuel : Nat) (t b : String) (dm : List (String × JsonValue))
    (l : List TypeOut) (h : emitTypeBody fuel t b dm = .ok l) :
    ∃ rest, l = TypeOut.alias t :: rest ∨
      ∃ fields, l = TypeOut.structOut t b fields :: rest := by
  cases fuel with
  | zero => simp [emitTypeBody] at h
  | succ f =>
    simp only [emitTypeBody] at h
    repeat' split at h
    all_goals simp at h
    all_goals subst h
    · exact ⟨[], Or.inl rfl⟩
    · exact ⟨[], Or.inr ⟨[], rfl⟩⟩
    · exact ⟨_, Or.inr ⟨_, rfl⟩⟩

/-- C1: the type emitter drops a property based solely on the pair
(property name, owning type name) according to the fixed suppression
table: `type` is suppressed exactly for Request, Response and Event;
`command` exactly when the owner is neither Request nor Response; `event`
exactly when the owner is not Event; `arguments` exactly for Request; and
a property with any other name (`body` aside, which is handled specially)
is never suppressed - in particular a suppressed name never reaches the
emitted field list. -/
theorem claim_c1_suppression_table :
    (∀ t, suppressProp t "type" = true ↔ (t = "Request" ∨ t = "Response" ∨ t = "Event")) ∧
    (∀ t, suppressProp t "command" = true ↔ ¬(t = "Request" ∨ t = "Response")) ∧
    (∀ t, suppressProp t "event" = true ↔ t ≠ "Event") ∧
    (∀ t, suppressProp t "arguments" = true ↔ t = "Request") ∧
    (∀ t p, p ≠ "type" → p ≠ "command" → p ≠ "event" → p ≠ "arguments" →
      suppressProp t p = false) ∧
    (∀ fuel t props req names fields bodies,
      emitPropLoop fuel t props req names = .ok (fields, bodies) →
      ∀ p, suppressProp t p = true → p ∉ fields.map FieldOut.jsonName) := by
  refine ⟨?_, ?_, ?_, ?_, ?_, ?_⟩
  · intro t; simp [suppressProp, or_assoc]
  · intro t; simp [suppressProp, not_or]
  · intro t; simp [suppressProp]
  · intro t; simp [suppressProp]
  · intro t p h1 h2 h3 h4
    unfold suppressProp
    rw [beq_eq_false_iff_ne.mpr h1, beq_eq_false_iff_ne.mpr h2,
        beq_eq_false_iff_ne.mpr h3, beq_eq_false_iff_ne.mpr h4]
    rfl
  · intro fuel t props req names fields bodies h p hsup hmem
    rw [(emitPropLoop_ok fuel t props req names fields bodies h).1] at hmem
    rcases List.mem_filter.mp hmem with ⟨-, hcond⟩
    rw [show dropProp t p = true by simp [dropProp, hsup]] at hcond
    simp at hcond

theorem claim_c1_witness :
    suppressProp "Request" "type" = true ∧
    suppressProp "StoppedEvent" "command" = true ∧
    suppressProp "LaunchRequest" "event" = true ∧
    suppressProp "Request" "arguments" = true ∧
    suppressProp "Request" "lines" = false ∧
    "type" ∉ List.map FieldOut.jsonName ([] : List FieldOut) := by
  refine ⟨?_, ?_, ?_, ?_, ?_, ?_⟩
  · exact (claim_c1_suppression_table.1 "Request").mpr (Or.inl rfl)
  · exact (claim_c1_suppression_table.2.1 "StoppedEvent").mpr (by decide)
  · exact (claim_c1_suppression_table.2.2.1 "LaunchRequest").mpr (by decide)
  · exact (claim_c1_suppression_table.2.2.2.1 "Request").mpr rfl
  · exact claim_c1_suppression_table.2.2.2.2.1 "Request" "lines"
      (by decide) (by decide) (by decide) (by decide)
  · exact claim_c1_suppression_table.2.2.2.2.2 3 "Request"
      [("type", JsonValue.obj [])] [] ["type"] [] [] rfl "type" rfl

/-- C4: a reference of the form `#/definitions/<Name>` resolves to exactly
`<Name>` up to the single rename Message to ErrorMessage, the rename is
applied at the definition and marker sites by the driver, and consequently
no block of a successful run and no marker name is the string `Message`. -/
theorem claim_c4_ref_resolution :
    (∀ name, parseRef (.str ("#/definitions/" ++ name)) = .ok (replaceGoTypename name)) ∧
    replaceGoTypename "Message" = "ErrorMessage" ∧
    (∀ n, n ≠ "Message" → replaceGoTypename n = n) ∧
    (∀ fuel doc m defs groups markers,
      asObj doc = .ok m → mapGet m "definitions" = some (.obj defs) →
      genTypes fuel doc = .ok (groups, markers) →
      (∀ g ∈ groups, ∀ ty ∈ g, ty.name ≠ "Message") ∧
      (∀ mk ∈ markers, mk ≠ "Message")) := by
  refine ⟨parseRef_resolves, rfl, ?_, ?_⟩
  · intro n hn
    unfold replaceGoTypename
    rw [beq_eq_false_iff_ne.mpr hn]
    rfl
  · intro fuel doc m defs groups markers hm hd h
    obtain ⟨hgroups, hmarkers⟩ := genTypes_inv fuel doc m defs groups markers hm hd h
    refine ⟨emitAll_no_message fuel defs (defs.map Prod.fst) groups hgroups, ?_⟩
    intro mk hmk
    rw [hmarkers] at hmk
    rcases List.mem_filter.mp hmk with ⟨hmem, -⟩
    rcases List.mem_map.mp hmem with ⟨k, -, rfl⟩
    exact replaceGoTypename_ne_message k

theorem claim_c4_witness :
    parseRef (.str "#/definitions/Message") = .ok (replaceGoTypename "Message") ∧
    replaceGoTypename "StoppedEvent" = "StoppedEvent" ∧
    (TypeOut.structOut "ErrorMessage" "" []).name ≠ "Message" := by
  refine ⟨claim_c4_ref_resolution.1 "Message",
    claim_c4_ref_resolution.2.2.1 "StoppedEvent" (by decide), ?_⟩
  have h := (claim_c4_ref_resolution.2.2.2 3
    (JsonValue.obj [("definitions",
      JsonValue.obj [("Message", JsonValue.obj [("type", JsonValue.str "object")])])])
    [("definitions",
      JsonValue.obj [("Message", JsonValue.obj [("type", JsonValue.str "object")])])]
    [("Message", JsonValue.obj [("type", JsonValue.str "object")])]
    [[TypeOut.structOut "ErrorMessage" "" []]] [] rfl rfl rfl).1
  exact h [TypeOut.structOut "ErrorMessage" "" []] (by simp)
    (TypeOut.structOut "ErrorMessage" "" []) (by simp)

/-- C5: a description without `allOf` is used as-is with an empty base
type; a two-element `allOf` resolves the first element's reference as the
base type and keeps only the second element as the type's own description,
so the emission proceeds from exactly that pair - the emitted struct head
embeds exactly that base; and an `allOf` list of any other length is a
fatal error. -/
theorem claim_c5_inheritance :
    (∀ dm, mapGet dm "allOf" = none → maybeParseInheritance dm = .ok ("", dm)) ∧
    (∀ dm refObj own r B, mapGet dm "allOf" = some (.arr [.obj refObj, .obj own]) →
      mapGet refObj "$ref" = some r → parseRef r = .ok B →
      maybeParseInheritance dm = .ok (B, own)) ∧
    (∀ dm l, mapGet dm "allOf" = some (.arr l) → l.length ≠ 2 →
      ∃ e, maybeParseInheritance dm = .error e) ∧
    (∀ f t dm refObj own r B, mapGet dm "allOf" = some (.arr [.obj refObj, .obj own]) →
      mapGet refObj "$ref" = some r → parseRef r = .ok B →
      emitToplevelType (f + 1) t (.obj dm) = emitTypeBody f t B own) ∧
    (∀ fuel t b dm l, emitTypeBody fuel t b dm = .ok l →
      ∃ rest, l = TypeOut.alias t :: rest ∨
        ∃ fields, l = TypeOut.structOut t b fields :: rest) := by
  have h2 : ∀ (dm refObj own : List (String × JsonValue)) (r : JsonValue) (B : String),
      mapGet dm "allOf" = some (.arr [.obj refObj, .obj own]) →
      mapGet refObj "$ref" = some r → parseRef r = .ok B →
      maybeParseInheritance dm = .ok (B, own) := by
    intro dm refObj own r B hall href hB
    unfold maybeParseInheritance
    rw [hall]
    simp only [href, Option.getD_some, hB]
  refine ⟨?_, h2, ?_, ?_, emitTypeBody_shape⟩
  · intro dm hno
    unfold maybeParseInheritance
    rw [hno]
  · intro dm l hall hlen
    unfold maybeParseInheritance
    rw [hall]
    match l with
    | [] => exact ⟨_, rfl⟩
    | [a] => exact ⟨_, rfl⟩
    | a :: b :: c :: rest => exact ⟨_, rfl⟩
    | [a, b] => exact absurd rfl hlen
  · intro f t dm refObj own r B hall href hB
    exact emitToplevelType_unfold f t (.obj dm) dm own B rfl
      (h2 dm refObj own r B hall href hB)

theorem claim_c5_witness :
    maybeParseInheritance [("type", JsonValue.str "object")] =
      .ok ("", [("type", JsonValue.str "object")]) ∧
    maybeParseInheritance
      [("allOf", JsonValue.arr
        [JsonValue.obj [("$ref", JsonValue.str "#/definitions/ProtocolMessage")],
         JsonValue.obj [("type", JsonValue.str "object")]])] =
      .ok ("ProtocolMessage", [("type", JsonValue.str "object")]) ∧
    (∃ e, maybeParseInheritance
      [("allOf", JsonValue.arr
        [JsonValue.obj [("$ref", JsonValue.str "#/definitions/ProtocolMessage")]])] =
      .error e) ∧
    emitToplevelType 3 "Request"
      (JsonValue.obj [("allOf", JsonValue.arr
        [JsonValue.obj [("$ref", JsonValue.str "#/definitions/ProtocolMessage")],
         JsonValue.obj [("type", JsonValue.str "object")]])]) =
      emitTypeBody 2 "Request" "ProtocolMessage" [("type", JsonValue.str "object")] ∧
    (∃ rest, [TypeOut.structOut "Request" "ProtocolMessage" []]
        = TypeOut.alias "Request" :: rest ∨
      ∃ fields, [TypeOut.structOut "Request" "ProtocolMessage" []]
        = TypeOut.structOut "Request" "ProtocolMessage" fields :: rest) := by
  refine ⟨claim_c5_inheritance.1 [("type", JsonValue.str "object")] rfl,
    claim_c5_inheritance.2.1 _ _ _ (JsonValue.str "#/definitions/ProtocolMessage")
      "ProtocolMessage" rfl rfl rfl,
    claim_c5_inheritance.2.2.1 _
      [JsonValue.obj [("$ref", JsonValue.str "#/definitions/ProtocolMessage")]]
      rfl (by decide),
    claim_c5_inheritance.2.2.2.1 2 "Request" _ _ _
      (JsonValue.str "#/definitions/ProtocolMessage") "ProtocolMessage" rfl rfl rfl,
    claim_c5_inheritance.2.2.2.2 3 "Request" "ProtocolMessage"
      [("type", JsonValue.str "object")] _ rfl⟩

/-- C6: the property-type mapper prefers a `$ref` over everything,
requires a `type` discriminator otherwise, maps the three scalar
discriminators to the Go builtins, maps `array` through `items` and
`object` through `additionalProperties` recursively (fatally when the
nested descriptor is absent), maps a JSON-list discriminator to
`interface\x7b\x7d`, and rejects every other discriminator fatally. -/
theorem claim_c6_property_type_mapper :
    (∀ fuel kvs ref, mapGet kvs "$ref" = some ref →
      parsePropertyType (fuel + 1) kvs = parseRef ref) ∧
    (∀ fuel kvs, mapGet kvs "$ref" = none → mapGet kvs "type" = none →
      parsePropertyType (fuel + 1) kvs = .error "property with no type or ref") ∧
    (∀ fuel kvs, mapGet kvs "$ref" = none → mapGet kvs "type" = some (.str "string") →
      parsePropertyType (fuel + 1) kvs = .ok "string") ∧
    (∀ fuel kvs, mapGet kvs "$ref" = none → mapGet kvs "type" = some (.str "integer") →
      parsePropertyType (fuel + 1) kvs = .ok "int") ∧
    (∀ fuel kvs, mapGet kvs "$ref" = none → mapGet kvs "type" = some (.str "boolean") →
      parsePropertyType (fuel + 1) kvs = .ok "bool") ∧
    (∀ fuel kvs, mapGet kvs "$ref" = none → mapGet kvs "type" = some (.str "array") →
      mapGet kvs "items" = none →
      parsePropertyType (fuel + 1) kvs =
        .error "missing items type for property of array type") ∧
    (∀ fuel kvs items, mapGet kvs "$ref" = none →
      mapGet kvs "type" = some (.str "array") → mapGet kvs "items" = some (.obj items) →
      parsePropertyType (fuel + 1) kvs =
        (parsePropertyType fuel items).map (fun ty => "[]" ++ ty)) ∧
    (∀ fuel kvs, mapGet kvs "$ref" = none → mapGet kvs "type" = some (.str "object") →
      mapGet kvs "additionalProperties" = none →
      parsePropertyType (fuel + 1) kvs =
        .error "missing additionalProperties field when type=object") ∧
    (∀ fuel kvs ap, mapGet kvs "$ref" = none →
      mapGet kvs "type" = some (.str "object") →
      mapGet kvs "additionalProperties" = some (.obj ap) →
      parsePropertyType (fuel + 1) kvs =
        (parsePropertyType fuel ap).map (fun ty => "map[string]" ++ ty)) ∧
    (∀ fuel kvs l, mapGet kvs "$ref" = none → mapGet kvs "type" = some (.arr l) →
      parsePropertyType (fuel + 1) kvs = .ok "interface\x7b\x7d") ∧
    (∀ fuel kvs s, mapGet kvs "$ref" = none → mapGet kvs "type" = some (.str s) →
      s ≠ "string" → s ≠ "integer" → s ≠ "boolean" → s ≠ "array" → s ≠ "object" →
      parsePropertyType (fuel + 1) kvs = .error "unknown property type value") ∧
    (∀ fuel kvs n, mapGet kvs "$ref" = none → mapGet kvs "type" = some (.num n) →
      parsePropertyType (fuel + 1) kvs = .error "unknown property type") := by
  refine ⟨?_, ?_, ?_, ?_, ?_, ?_, ?_, ?_, ?_, ?_, ?_, ?_⟩
  · intro fuel kvs ref h
    simp only [parsePropertyType, h]
  · intro fuel kvs h1 h2
    simp only [parsePropertyType, h1, h2]
  · intro fuel kvs h1 h2
    simp [parsePropertyType, h1, h2]
  · intro fuel kvs h1 h2
    simp [parsePropertyType, h1, h2]
  · intro fuel kvs h1 h2
    simp [parsePropertyType, h1, h2]
  · intro fuel kvs h1 h2 h3
    simp [parsePropertyType, h1, h2, h3]
  · intro fuel kvs items h1 h2 h3
    simp only [parsePropertyType, h1, h2, h3]
    cases hrec : parsePropertyType fuel items <;> simp [hrec, Except.map]
  · intro fuel kvs h1 h2 h3
    simp [parsePropertyType, h1, h2, h3]
  · intro fuel kvs ap h1 h2 h3
    simp only [parsePropertyType, h1, h2, h3]
    cases hrec : parsePropertyType fuel ap <;> simp [hrec, Except.map]
  · intro fuel kvs l h1 h2
    simp [parsePropertyType, h1, h2]
  · intro fuel kvs s h1 h2 hs1 hs2 hs3 hs4 hs5
    simp only [parsePropertyType, h1, h2]
    rw [beq_eq_false_iff_ne.mpr hs1, beq_eq_false_iff_ne.mpr hs2,
        beq_eq_false_iff_ne.mpr hs3, beq_eq_false_iff_ne.mpr hs4,
        beq_eq_false_iff_ne.mpr hs5]
    rfl
  · intro fuel kvs n h1 h2
    simp only [parsePropertyType, h1, h2]

theorem claim_c6_witness :
    parsePropertyType 2 [("$ref", JsonValue.str "#/definitions/Source"),
        ("type", JsonValue.str "string")] =
      parseRef (JsonValue.str "#/definitions/Source") ∧
    parsePropertyType 2 [("description", JsonValue.str "x")] =
      .error "property with no type or ref" ∧
    parsePropertyType 2 [("type", JsonValue.str "string")] = .ok "string" ∧
    parsePropertyType 2 [("type", JsonValue.str "integer")] = .ok "int" ∧
    parsePropertyType 2 [("type", JsonValue.str "boolean")] = .ok "bool" ∧
    parsePropertyType 2 [("type", JsonValue.str "array")] =
      .error "missing items type for property of array type" ∧
    parsePropertyType 2 [("type", JsonValue.str "array"),
        ("items", JsonValue.obj [("type", JsonValue.str "string")])] =
      (parsePropertyType 1 [("type", JsonValue.str "string")]).map
        (fun ty => "[]" ++ ty) ∧
    parsePropertyType 2 [("type", JsonValue.str "object")] =
      .error "missing additionalProperties field when type=object" ∧
    parsePropertyType 2 [("type", JsonValue.str "object"),
        ("additionalProperties", JsonValue.obj [("type", JsonValue.str "integer")])] =
      (parsePropertyType 1 [("type", JsonValue.str "integer")]).map
        (fun ty => "map[string]" ++ ty) ∧
    parsePropertyType 2 [("type", JsonValue.arr
        [JsonValue.str "integer", JsonValue.str "string"])] = .ok "interface\x7b\x7d" ∧
    parsePropertyType 2 [("type", JsonValue.str "number")] =
      .error "unknown property type value" ∧
    parsePropertyType 2 [("type", JsonValue.num 7)] =
      .error "unknown property type" := by
  refine ⟨claim_c6_property_type_mapper.1 1 _ _ rfl,
    claim_c6_property_type_mapper.2.1 1 _ rfl rfl,
    claim_c6_property_type_mapper.2.2.1 1 _ rfl rfl,
    claim_c6_property_type_mapper.2.2.2.1 1 _ rfl rfl,
    claim_c6_property_type_mapper.2.2.2.2.1 1 _ rfl rfl,
    claim_c6_property_type_mapper.2.2.2.2.2.1 1 _ rfl rfl rfl,
    claim_c6_property_type_mapper.2.2.2.2.2.2.1 1 _ _ rfl rfl rfl,
    claim_c6_property_type_mapper.2.2.2.2.2.2.2.1 1 _ rfl rfl rfl,
    claim_c6_property_type_mapper.2.2.2.2.2.2.2.2.1 1 _ _ rfl rfl rfl,
    claim_c6_property_type_mapper.2.2.2.2.2.2.2.2.2.1 1 _ _ rfl rfl,
    claim_c6_property_type_mapper.2.2.2.2.2.2.2.2.2.2.1 1 _ "number" rfl rfl
      (by decide) (by decide) (by decide) (by decide) (by decide),
    claim_c6_property_type_mapper.2.2.2.2.2.2.2.2.2.2.2 1 _ 7 rfl rfl⟩

/-- C7: a field whose property name is in the owning type's required set
gets the bare property name as its tag; every other field's tag carries
the omitempty marker; and an absent `required` key defaults to no property
being required, so every field of such a type is omittable. -/
theorem claim_c7_required_optional :
    (∀ fuel t props reqList names fields bodies,
      emitPropLoop fuel t props reqList names = .ok (fields, bodies) →
      ∀ fld ∈ fields,
        (fld.jsonName ∈ reqList →
          fld.tag = "`json:\"" ++ fld.jsonName ++ "\"`") ∧
        (fld.jsonName ∉ reqList →
          fld.tag = "`json:\"" ++ fld.jsonName ++ ",omitempty\"`")) ∧
    (∀ dm, mapGet dm "required" = none → requiredOf dm = .ok []) ∧
    (∀ f t b dm props fields bodies,
      mapGet dm "type" = some (.str "object") →
      mapGet dm "properties" = some (.obj props) →
      mapGet dm "required" = none →
      emitTypeBody (f + 1) t b dm = .ok (.structOut t b fields :: bodies) →
      ∀ fld ∈ fields, fld.required = false ∧
        fld.tag = "`json:\"" ++ fld.jsonName ++ ",omitempty\"`") := by
  have hmain : ∀ (fuel : Nat) (t : String) (props : List (String × JsonValue))
      (reqList names : List String) (fields : List FieldOut) (bodies : List TypeOut),
      emitPropLoop fuel t props reqList names = .ok (fields, bodies) →
      ∀ fld ∈ fields,
        (fld.jsonName ∈ reqList → fld.tag = "`json:\"" ++ fld.jsonName ++ "\"`") ∧
        (fld.jsonName ∉ reqList →
          fld.tag = "`json:\"" ++ fld.jsonName ++ ",omitempty\"`") := by
    intro fuel t props reqList names fields bodies h fld hmem
    obtain ⟨hreq, -, htag⟩ :=
      (emitPropLoop_ok fuel t props reqList names fields bodies h).2.1 fld hmem
    constructor
    · intro hin
      have hc : reqList.contains fld.jsonName = true := by simpa using hin
      rw [htag, hreq, hc]
      simp [mkJsonTag]
    · intro hnin
      have hc : reqList.contains fld.jsonName = false := by simpa using hnin
      rw [htag, hreq, hc]
      simp [mkJsonTag]
  refine ⟨hmain, ?_, ?_⟩
  · intro dm hreqn
    unfold requiredOf
    rw [hreqn]
  · intro f t b dm props fields bodies hty hpr hreqn h
    have hreq : requiredOf dm = .ok [] := by unfold requiredOf; rw [hreqn]
    rw [emitTypeBody_object f t b dm (.obj props) props (props.map Prod.fst) []
      hty hpr rfl (keysInOrder_obj props) hreq] at h
    cases hloop : emitPropLoop f t props [] (props.map Prod.fst) with
    | error e => rw [hloop] at h; simp at h
    | ok pr =>
      rw [hloop] at h
      obtain ⟨fields2, bodies2⟩ := pr
      simp only [Except.ok.injEq, List.cons.injEq, TypeOut.structOut.injEq] at h
      obtain ⟨⟨-, -, hf⟩, -⟩ := h
      subst hf
      intro fld hmem
      obtain ⟨hreqf, -, htag⟩ :=
        (emitPropLoop_ok f t props [] (props.map Prod.fst) fields2 bodies2 hloop).2.1
          fld hmem
      have hfalse : fld.required = false := by simpa using hreqf
      refine ⟨hfalse, ?_⟩
      rw [htag, hfalse]
      simp [mkJsonTag]

theorem claim_c7_witness :
    ({ goName := "A", goType := "string", jsonName := "a", required := true,
       tag := "`json:\"a\"`" } : FieldOut).tag = "`json:\"a\"`" ∧
    ({ goName := "B", goType := "int", jsonName := "b", required := false,
       tag := "`json:\"b,omitempty\"`" } : FieldOut).tag = "`json:\"b,omitempty\"`" ∧
    requiredOf [("type", JsonValue.str "object")] = .ok [] ∧
    ({ goName := "C", goType := "bool", jsonName := "c", required := false,
       tag := "`json:\"c,omitempty\"`" } : FieldOut).required = false := by
  have hloop : emitPropLoop 3 "Foo"
      [("a", JsonValue.obj [("type", JsonValue.str "string")]),
       ("b", JsonValue.obj [("type", JsonValue.str "integer")])] ["a"] ["a", "b"] =
      .ok ([{ goName := "A", goType := "string", jsonName := "a", required := true,
              tag := "`json:\"a\"`" },
            { goName := "B", goType := "int", jsonName := "b", required := false,
              tag := "`json:\"b,omitempty\"`" }], []) := rfl
  have hall := claim_c7_required_optional.1 3 "Foo"
    [("a", JsonValue.obj [("type", JsonValue.str "string")]),
     ("b", JsonValue.obj [("type", JsonValue.str "integer")])] ["a"] ["a", "b"] _ _ hloop
  refine ⟨(hall _ (by simp)).1 (by simp), (hall _ (by simp)).2 (by simp), ?_, ?_⟩
  · exact claim_c7_required_optional.2.1 [("type", JsonValue.str "object")] rfl
  · have hbody := claim_c7_required_optional.2.2 2 "Foo" ""
      [("type", JsonValue.str "object"),
       ("properties", JsonValue.obj
         [("c", JsonValue.obj [("type", JsonValue.str "boolean")])])]
      [("c", JsonValue.obj [("type", JsonValue.str "boolean")])]
      [{ goName := "C", goType := "bool", jsonName := "c", required := false,
         tag := "`json:\"c,omitempty\"`" }] [] rfl rfl rfl rfl
    exact (hbody _ (by simp)).1

/-- C9: every emitted field's Go name is `goFieldName` of its JSON
property name - underscores become word breaks and each word is
title-cased, so `__some_property_name` becomes `SomePropertyName` - while
the serialization tag keeps the original property name verbatim. -/
theorem claim_c9_field_name :
    (∀ fuel t props reqList names fields bodies,
      emitPropLoop fuel t props reqList names = .ok (fields, bodies) →
      ∀ fld ∈ fields, fld.goName = goFieldName fld.jsonName ∧
        fld.tag = "`json:\"" ++ fld.jsonName ++
          (if fld.required then "\"`" else ",omitempty\"`")) ∧
    goFieldName "__some_property_name" = "SomePropertyName" := by
  refine ⟨?_, by decide⟩
  intro fuel t props reqList names fields bodies h fld hmem
  obtain ⟨-, hname, htag⟩ :=
    (emitPropLoop_ok fuel t props reqList names fields bodies h).2.1 fld hmem
  exact ⟨hname, htag⟩

theorem claim_c9_witness :
    ({ goName := "SomePropertyName", goType := "string",
       jsonName := "__some_property_name", required := false,
       tag := "`json:\"__some_property_name,omitempty\"`" } : FieldOut).goName =
      goFieldName "__some_property_name" ∧
    goFieldName "__some_property_name" = "SomePropertyName" := by
  refine ⟨?_, claim_c9_field_name.2⟩
  exact ((claim_c9_field_name.1 3 "Foo"
    [("__some_property_name", JsonValue.obj [("type", JsonValue.str "string")])] []
    ["__some_property_name"]
    [{ goName := "SomePropertyName", goType := "string",
       jsonName := "__some_property_name", required := false,
       tag := "`json:\"__some_property_name,omitempty\"`" }] [] rfl) _ (by simp)).1

/-- C10 counterexample: the claim asserts that a `body` property skipped
because the owning type is Response is skipped before its descriptor is
parsed, so that a malformed descriptor there cannot abort generation.  On
the code, the descriptor is unmarshalled into a generic map before the
Response/Event skip, so a non-object `body` descriptor is fatal: emitting
type Response whose only malformation is `body: 123` fails. -/
theorem claim_c10_counterexample :
    emitToplevelType 10 "Response"
      (.obj [("type", JsonValue.str "object"),
             ("properties", JsonValue.obj [("body", JsonValue.num 123)])]) =
    .error "json: cannot unmarshal value into Go value of type map" := rfl

/-- C10 amended: a property dropped by the suppression table is skipped
before its descriptor is decoded, so an arbitrary (even malformed) value
under a table-suppressed name never causes an error; a `body` property of
a Response or Event is skipped only after its descriptor is decoded into a
generic JSON object, so its contents are never examined, but the
descriptor itself must decode as an object (or null). -/
theorem claim_c10_suppressed_before_parse :
    (∀ fuel t props req p rest, suppressProp t p = true →
      emitPropLoop (fuel + 1) t props req (p :: rest) =
        emitPropLoop fuel t props req rest) ∧
    (∀ fuel t props req rest bv bkvs, (t = "Response" ∨ t = "Event") →
      mapGet props "body" = some bv → asObj bv = .ok bkvs →
      emitPropLoop (fuel + 1) t props req ("body" :: rest) =
        emitPropLoop fuel t props req rest) := by
  constructor
  · intro fuel t props req p rest hsup
    simp only [emitPropLoop, hsup, if_true]
  · intro fuel t props req rest bv bkvs ht hbv hbo
    simp only [emitPropLoop, suppressProp_body, Bool.false_eq_true, if_false, hbv, hbo]
    have hre : (t == "Response" || t == "Event") = true := by
      rcases ht with rfl | rfl <;> rfl
    rw [hre]
    simp

theorem claim_c10_witness :
    emitPropLoop 3 "Event" [("command", JsonValue.num 5)] [] ["command"] =
      emitPropLoop 2 "Event" [("command", JsonValue.num 5)] [] [] ∧
    emitPropLoop 3 "Response" [("body", JsonValue.obj [("type", JsonValue.num 7)])]
        [] ["body"] =
      emitPropLoop 2 "Response" [("body", JsonValue.obj [("type", JsonValue.num 7)])]
        [] [] := by
  constructor
  · exact claim_c10_suppressed_before_parse.1 2 "Event" [("command", JsonValue.num 5)]
      [] "command" [] rfl
  · exact claim_c10_suppressed_before_parse.2 2 "Response"
      [("body", JsonValue.obj [("type", JsonValue.num 7)])] [] []
      (JsonValue.obj [("type", JsonValue.num 7)]) [("type", JsonValue.num 7)]
      (Or.inl rfl) rfl rfl

/-- C3: the token walk returns an object's keys in source order; the
emitted top-level groups follow the definitions object's key order modulo
the Message rename; and within an object type the emitted field sequence
is the source order of the properties object's keys minus the dropped
properties. -/
theorem claim_c3_order_preservation :
    (∀ kvs, keysInOrder (toks (.obj kvs)) = .ok (kvs.map Prod.fst)) ∧
    (∀ fuel doc m defs groups markers,
      asObj doc = .ok m → mapGet m "definitions" = some (.obj defs) →
      genTypes fuel doc = .ok (groups, markers) →
      groups.map (fun g => g.head?.map TypeOut.name) =
        defs.map (fun kv => some (replaceGoTypename kv.1))) ∧
    (∀ f t b dm props req fields bodies,
      mapGet dm "type" = some (.str "object") →
      mapGet dm "properties" = some (.obj props) →
      requiredOf dm = .ok req →
      emitTypeBody (f + 1) t b dm = .ok (.structOut t b fields :: bodies) →
      fields.map FieldOut.jsonName =
        (props.map Prod.fst).filter (fun p => !dropProp t p)) := by
  refine ⟨keysInOrder_obj, ?_, ?_⟩
  · intro fuel doc m defs groups markers hm hd h
    exact (genTypes_names fuel doc m defs groups markers hm hd h).1
  · intro f t b dm props req fields bodies hty hpr hreq h
    rw [emitTypeBody_object f t b dm (.obj props) props (props.map Prod.fst) req
      hty hpr rfl (keysInOrder_obj props) hreq] at h
    cases hloop : emitPropLoop f t props req (props.map Prod.fst) with
    | error e => rw [hloop] at h; simp at h
    | ok pr =>
      rw [hloop] at h
      obtain ⟨fields2, bodies2⟩ := pr
      simp only [Except.ok.injEq, List.cons.injEq, TypeOut.structOut.injEq] at h
      obtain ⟨⟨-, -, hf⟩, -⟩ := h
      subst hf
      exact (emitPropLoop_ok f t props req (props.map Prod.fst) fields2 bodies2 hloop).1

theorem claim_c3_witness :
    keysInOrder (toks (.obj [("zeta", JsonValue.null), ("alpha", JsonValue.num 1)])) =
      .ok ["zeta", "alpha"] ∧
    [[TypeOut.structOut "ProtocolMessage" "" []],
     [TypeOut.structOut "ErrorMessage" "" []]].map
        (fun g => g.head?.map TypeOut.name) =
      [("ProtocolMessage", JsonValue.obj [("type", JsonValue.str "object")]),
       ("Message", JsonValue.obj [("type", JsonValue.str "object")])].map
        (fun kv => some (replaceGoTypename kv.1)) ∧
    [({ goName := "Command", goType := "string", jsonName := "command",
        required := false, tag := "`json:\"command,omitempty\"`" } : FieldOut)].map
        FieldOut.jsonName =
      ([("type", JsonValue.obj [("type", JsonValue.str "string")]),
        ("command", JsonValue.obj [("type", JsonValue.str "string")])].map
          Prod.fst).filter (fun p => !dropProp "Request" p) := by
  refine ⟨claim_c3_order_preservation.1 _, ?_, ?_⟩
  · exact claim_c3_order_preservation.2.1 4
      (JsonValue.obj [("definitions", JsonValue.obj
        [("ProtocolMessage", JsonValue.obj [("type", JsonValue.str "object")]),
         ("Message", JsonValue.obj [("type", JsonValue.str "object")])])])
      [("definitions", JsonValue.obj
        [("ProtocolMessage", JsonValue.obj [("type", JsonValue.str "object")]),
         ("Message", JsonValue.obj [("type", JsonValue.str "object")])])]
      [("ProtocolMessage", JsonValue.obj [("type", JsonValue.str "object")]),
       ("Message", JsonValue.obj [("type", JsonValue.str "object")])]
      [[TypeOut.structOut "ProtocolMessage" "" []],
       [TypeOut.structOut "ErrorMessage" "" []]]
      ["ProtocolMessage"] rfl rfl rfl
  · exact claim_c3_order_preservation.2.2 3 "Request" ""
      [("type", JsonValue.str "object"),
       ("properties", JsonValue.obj
         [("type", JsonValue.obj [("type", JsonValue.str "string")]),
          ("command", JsonValue.obj [("type", JsonValue.str "string")])])]
      [("type", JsonValue.obj [("type", JsonValue.str "string")]),
       ("command", JsonValue.obj [("type", JsonValue.str "string")])]
      [] _ [] rfl rfl rfl rfl

/-- C2: for a type whose properties contain `body` exactly once, a
Response or Event owner skips the body property entirely (no body field
and no secondary type); otherwise a referenced body descriptor contributes
a `Body` field typed with the resolved reference name and no secondary
type, and an inline body descriptor contributes a `Body` field typed
`<OwningType>Body` whose synthesized type - the recursive emission of the
inline description, headed by a block named `<OwningType>Body` - follows
the primary type immediately; the body field is required or optional per
the required-set. -/
theorem claim_c2_body_synthesis
    (f : Nat) (t b : String) (dm props : List (String × JsonValue))
    (req pre post : List String) (bdesc : JsonValue)
    (bkvs : List (String × JsonValue)) (l : List TypeOut)
    (hty : mapGet dm "type" = some (.str "object"))
    (hpr : mapGet dm "properties" = some (.obj props))
    (hreq : requiredOf dm = .ok req)
    (hbv : mapGet props "body" = some bdesc)
    (hbo : asObj bdesc = .ok bkvs)
    (hsplit : props.map Prod.fst = pre ++ "body" :: post)
    (hpre : "body" ∉ pre) (hpost : "body" ∉ post)
    (h : emitTypeBody (f + 1) t b dm = .ok l) :
    ((t = "Response" ∨ t = "Event") →
      ∃ fields, l = [.structOut t b fields] ∧
        ∀ fld ∈ fields, fld.jsonName ≠ "body") ∧
    (t ≠ "Response" → t ≠ "Event" →
      (∀ r B, mapGet bkvs "$ref" = some r → parseRef r = .ok B →
        ∃ f1 f2, l = [.structOut t b (f1 ++
          ({ goName := "Body", goType := B, jsonName := "body",
             required := req.contains "body",
             tag := mkJsonTag "body" (req.contains "body") } : FieldOut) :: f2)]) ∧
      (mapGet bkvs "$ref" = none →
        ∃ f1 f2 bodyTs f2fuel, l = .structOut t b (f1 ++
          ({ goName := "Body", goType := t ++ "Body", jsonName := "body",
             required := req.contains "body",
             tag := mkJsonTag "body" (req.contains "body") } : FieldOut) :: f2) :: bodyTs ∧
          emitToplevelType f2fuel (t ++ "Body") bdesc = .ok bodyTs ∧
          ∃ hd hrest, bodyTs = hd :: hrest ∧ hd.name = t ++ "Body")) := by
  rw [emitTypeBody_object f t b dm (.obj props) props (props.map Prod.fst) req
    hty hpr rfl (keysInOrder_obj props) hreq] at h
  cases hloop : emitPropLoop f t props req (props.map Prod.fst) with
  | error e => rw [hloop] at h; simp at h
  | ok pr =>
    rw [hloop] at h
    obtain ⟨fields, bodies⟩ := pr
    simp only [Except.ok.injEq] at h
    subst h
    constructor
    · intro ht
      have hmb := emitPropLoop_ok f t props req (props.map Prod.fst) fields bodies hloop
      have hbodies : bodies = [] := hmb.2.2 (Or.inl ht)
      subst hbodies
      refine ⟨fields, rfl, ?_⟩
      intro fld hmem hcontra
      have hin : fld.jsonName ∈ List.map FieldOut.jsonName fields :=
        List.mem_map_of_mem _ hmem
      rw [hmb.1, hcontra] at hin
      rcases List.mem_filter.mp hin with ⟨-, hcond⟩
      have hdrop : dropProp t "body" = true := by
        rcases ht with rfl | rfl <;> rfl
      rw [hdrop] at hcond
      simp at hcond
    · intro hR hE
      rw [hsplit] at hloop
      obtain ⟨btn, f1, f2, hfeq, hdisj⟩ :=
        emitPropLoop_body_split t props req post bdesc bkvs hR hE hbv hbo hpost
          pre f fields bodies hpre hloop
      constructor
      · intro r B hr hB
        rcases hdisj with ⟨ref, href, hpref, hbodies⟩ | ⟨hnone, -, -⟩
        · rw [href] at hr
          obtain rfl : ref = r := by simpa using hr
          rw [hpref] at hB
          obtain rfl : btn = B := by simpa using hB
          subst hbodies
          subst hfeq
          exact ⟨f1, f2, rfl⟩
        · rw [hnone] at hr
          simp at hr
      · intro hnone
        rcases hdisj with ⟨ref, href, -, -⟩ | ⟨-, hbtn, fb, hemit⟩
        · rw [hnone] at href
          simp at href
        · subst hbtn
          subst hfeq
          obtain ⟨hd, hrest, hbts, hname⟩ :=
            emitToplevelType_head fb (t ++ "Body") bdesc bodies hemit
          exact ⟨f1, f2, bodies, fb, rfl, hemit, hd, hrest, hbts, hname⟩

theorem claim_c2_witness :
    (∃ fields, ([TypeOut.structOut "Response" "" []] : List TypeOut) =
        [.structOut "Response" "" fields] ∧
      ∀ fld ∈ fields, fld.jsonName ≠ "body") ∧
    (∃ f1 f2, ([TypeOut.structOut "Bar" ""
        [{ goName := "Body", goType := "Source", jsonName := "body",
           required := false, tag := "`json:\"body,omitempty\"`" }]] : List TypeOut) =
      [.structOut "Bar" "" (f1 ++
        ({ goName := "Body", goType := "Source", jsonName := "body",
           required := [].contains "body",
           tag := mkJsonTag "body" ([].contains "body") } : FieldOut) :: f2)]) ∧
    (∃ f1 f2 bodyTs f2fuel,
      ([TypeOut.structOut "Foo" ""
          [{ goName := "Body", goType := "FooBody", jsonName := "body",
             required := false, tag := "`json:\"body,omitempty\"`" }],
        TypeOut.structOut "FooBody" ""
          [{ goName := "X", goType := "int", jsonName := "x",
             required := false, tag := "`json:\"x,omitempty\"`" }]] : List TypeOut) =
        .structOut "Foo" "" (f1 ++
          ({ goName := "Body", goType := "Foo" ++ "Body", jsonName := "body",
             required := [].contains "body",
             tag := mkJsonTag "body" ([].contains "body") } : FieldOut) :: f2) :: bodyTs ∧
        emitToplevelType f2fuel ("Foo" ++ "Body")
          (JsonValue.obj [("type", JsonValue.str "object"),
            ("properties", JsonValue.obj
              [("x", JsonValue.obj [("type", JsonValue.str "integer")])])]) =
          .ok bodyTs ∧
        ∃ hd hrest, bodyTs = hd :: hrest ∧ hd.name = "Foo" ++ "Body") := by
  refine ⟨?_, ?_, ?_⟩
  · exact (claim_c2_body_synthesis 3 "Response" ""
      [("type", JsonValue.str "object"),
       ("properties", JsonValue.obj [("body", JsonValue.obj
         [("type", JsonValue.str "object")])])]
      [("body", JsonValue.obj [("type", JsonValue.str "object")])]
      [] [] [] (JsonValue.obj [("type", JsonValue.str "object")])
      [("type", JsonValue.str "object")] [TypeOut.structOut "Response" "" []]
      rfl rfl rfl rfl rfl rfl (by simp) (by simp) rfl).1 (Or.inl rfl)
  · exact ((claim_c2_body_synthesis 3 "Bar" ""
      [("type", JsonValue.str "object"),
       ("properties", JsonValue.obj [("body", JsonValue.obj
         [("$ref", JsonValue.str "#/definitions/Source")])])]
      [("body", JsonValue.obj [("$ref", JsonValue.str "#/definitions/Source")])]
      [] [] [] (JsonValue.obj [("$ref", JsonValue.str "#/definitions/Source")])
      [("$ref", JsonValue.str "#/definitions/Source")]
      [TypeOut.structOut "Bar" ""
        [{ goName := "Body", goType := "Source", jsonName := "body",
           required := false, tag := "`json:\"body,omitempty\"`" }]]
      rfl rfl rfl rfl rfl rfl (by simp) (by simp) rfl).2
      (by decide) (by decide)).1 (JsonValue.str "#/definitions/Source") "Source" rfl rfl
  · exact ((claim_c2_body_synthesis 6 "Foo" ""
      [("type", JsonValue.str "object"),
       ("properties", JsonValue.obj [("body", JsonValue.obj
         [("type", JsonValue.str "object"),
          ("properties", JsonValue.obj
            [("x", JsonValue.obj [("type", JsonValue.str "integer")])])])])]
      [("body", JsonValue.obj
         [("type", JsonValue.str "object"),
          ("properties", JsonValue.obj
            [("x", JsonValue.obj [("type", JsonValue.str "integer")])])])]
      [] [] [] (JsonValue.obj
         [("type", JsonValue.str "object"),
          ("properties", JsonValue.obj
            [("x", JsonValue.obj [("type", JsonValue.str "integer")])])])
      [("type", JsonValue.str "object"),
       ("properties", JsonValue.obj
         [("x", JsonValue.obj [("type", JsonValue.str "integer")])])]
      [TypeOut.structOut "Foo" ""
          [{ goName := "Body", goType := "FooBody", jsonName := "body",
             required := false, tag := "`json:\"body,omitempty\"`" }],
        TypeOut.structOut "FooBody" ""
          [{ goName := "X", goType := "int", jsonName := "x",
             required := false, tag := "`json:\"x,omitempty\"`" }]]
      rfl rfl rfl rfl rfl rfl (by simp) (by simp) rfl).2
      (by decide) (by decide)).2 rfl

/-- C8: every malformed-schema condition is a fatal error - a `$ref` value
that is not a string, a `$ref` string without the `#/definitions/` prefix,
a property descriptor with neither `$ref` nor `type`, an `allOf` list
without exactly two elements, and an unknown `type` discriminator - and a
document containing the fragment with `$ref` 123 makes the whole generator
return an error (at every recursion budget), so no output is produced:
the model returns output only from a fully successful run, mirroring the
single print at the end of `main`. -/
theorem claim_c8_fatal_errors :
    (∀ v, (∀ s, v ≠ JsonValue.str s) → ∃ e, parseRef v = .error e) ∧
    (∀ s, List.isPrefixOf "#/definitions/".data s.data = false →
      parseRef (.str s) = .error "want ref to start with #/definitions/") ∧
    (∀ fuel kvs, mapGet kvs "$ref" = none → mapGet kvs "type" = none →
      parsePropertyType (fuel + 1) kvs = .error "property with no type or ref") ∧
    (∀ dm l, mapGet dm "allOf" = some (.arr l) → l.length ≠ 2 →
      ∃ e, maybeParseInheritance dm = .error e) ∧
    (∀ fuel kvs s, mapGet kvs "$ref" = none → mapGet kvs "type" = some (.str s) →
      s ≠ "string" → s ≠ "integer" → s ≠ "boolean" → s ≠ "array" → s ≠ "object" →
      parsePropertyType (fuel + 1) kvs = .error "unknown property type value") ∧
    (∀ fuel, ∃ e, genTypes fuel (JsonValue.obj [("definitions", JsonValue.obj
      [("Foo", JsonValue.obj [("type", JsonValue.str "object"),
        ("properties", JsonValue.obj
          [("f", JsonValue.obj [("$ref", JsonValue.num 123)])])])])]) = .error e) := by
  refine ⟨?_, ?_, ?_, ?_, ?_, ?_⟩
  · intro v hv
    cases v with
    | str s => exact absurd rfl (hv s)
    | null => exact ⟨_, rfl⟩
    | bool b => exact ⟨_, rfl⟩
    | num n => exact ⟨_, rfl⟩
    | arr xs => exact ⟨_, rfl⟩
    | obj kvs => exact ⟨_, rfl⟩
  · intro s h
    unfold parseRef
    simp only [h, Bool.false_eq_true, if_false]
  · intro fuel kvs h1 h2
    simp only [parsePropertyType, h1, h2]
  · intro dm l hall hlen
    unfold maybeParseInheritance
    rw [hall]
    match l with
    | [] => exact ⟨_, rfl⟩
    | [a] => exact ⟨_, rfl⟩
    | a :: b :: c :: rest => exact ⟨_, rfl⟩
    | [a, b] => exact absurd rfl hlen
  · intro fuel kvs s h1 h2 hs1 hs2 hs3 hs4 hs5
    simp only [parsePropertyType, h1, h2]
    rw [beq_eq_false_iff_ne.mpr hs1, beq_eq_false_iff_ne.mpr hs2,
        beq_eq_false_iff_ne.mpr hs3, beq_eq_false_iff_ne.mpr hs4,
        beq_eq_false_iff_ne.mpr hs5]
    rfl
  · intro fuel
    match fuel with
    | 0 => exact ⟨_, rfl⟩
    | 1 => exact ⟨_, rfl⟩
    | 2 => exact ⟨_, rfl⟩
    | 3 => exact ⟨_, rfl⟩
    | n + 4 => exact ⟨_, rfl⟩

theorem claim_c8_witness :
    (∃ e, parseRef (JsonValue.num 123) = .error e) ∧
    parseRef (JsonValue.str "definitions/Foo") =
      .error "want ref to start with #/definitions/" ∧
    parsePropertyType 1 [("description", JsonValue.str "d")] =
      .error "property with no type or ref" ∧
    (∃ e, maybeParseInheritance
      [("allOf", JsonValue.arr [JsonValue.obj []])] = .error e) ∧
    parsePropertyType 1 [("type", JsonValue.str "float")] =
      .error "unknown property type value" ∧
    (∃ e, genTypes 10 (JsonValue.obj [("definitions", JsonValue.obj
      [("Foo", JsonValue.obj [("type", JsonValue.str "object"),
        ("properties", JsonValue.obj
          [("f", JsonValue.obj [("$ref", JsonValue.num 123)])])])])]) = .error e) := by
  refine ⟨claim_c8_fatal_errors.1 (JsonValue.num 123)
      (fun s h => JsonValue.noConfusion h),
    claim_c8_fatal_errors.2.1 "definitions/Foo" (by decide),
    claim_c8_fatal_errors.2.2.1 0 [("description", JsonValue.str "d")] rfl rfl,
    claim_c8_fatal_errors.2.2.2.1 _ [JsonValue.obj []] rfl (by decide),
    claim_c8_fatal_errors.2.2.2.2.1 0 [("type", JsonValue.str "float")] "float" rfl rfl
      (by decide) (by decide) (by decide) (by decide) (by decide),
    claim_c8_fatal_errors.2.2.2.2.2 10⟩
